import Mathlib

/-!
Verification development for the heavy-flavour track-index skims creator
(HFTrackIndexSkimsCreator.cxx): multi-hypothesis combinatorial candidate
formation with pT-dependent cut tables and bitmask selection status.

Floating-point quantities of the C++ code are modelled as exact rationals;
the control flow only compares, adds, multiplies and squares them, so every
branch condition of the source is reproduced exactly.
-/

namespace Skims

/-- Number of 2-prong decay hypotheses (D0ToPiK, JpsiToEE, JpsiToMuMu). -/
def n2ProngDecays : ℕ := 3

/-- Number of 3-prong decay hypotheses (DPlusToPiKPi, LcToPKPi, DsToPiKK, XicToPKPi). -/
def n3ProngDecays : ℕ := 4

/-- Number of per-hypothesis selections made on 2-prongs (nCuts2Prong). -/
def nCuts2Prong : ℕ := 4

/-- Number of per-hypothesis selections made on 3-prongs (nCuts3Prong). -/
def nCuts3Prong : ℕ := 4

/-- Bit value with all 2-prong hypothesis bits set: BIT(n2ProngDecays) - 1. -/
def n2ProngBit : ℕ := 2 ^ n2ProngDecays - 1

/-- Bit value with all 3-prong hypothesis bits set: BIT(n3ProngDecays) - 1. -/
def n3ProngBit : ℕ := 2 ^ n3ProngDecays - 1

/-- CLRBIT(n, i): clear bit i of the bitmask n (no-op when the bit is already 0). -/
def clrBit (n i : ℕ) : ℕ := if n.testBit i then n ^^^ 2 ^ i else n

theorem testBit_clrBit_self (n i : ℕ) : (clrBit n i).testBit i = false := by
  unfold clrBit
  by_cases h : n.testBit i
  · simp [h, Nat.testBit_xor, Nat.testBit_two_pow_self]
  · simp [h]

theorem testBit_clrBit_ne {i k : ℕ} (h : k ≠ i) (n : ℕ) :
    (clrBit n i).testBit k = n.testBit k := by
  unfold clrBit
  by_cases hn : n.testBit i
  · simp [hn, Nat.testBit_xor, Nat.testBit_two_pow_of_ne (Ne.symm h)]
  · simp [hn]

theorem testBit_clrBit_le {n i k : ℕ} (h : (clrBit n i).testBit k = true) :
    n.testBit k = true := by
  by_cases hk : k = i
  · subst hk; rw [testBit_clrBit_self] at h; exact absurd h (by simp)
  · rwa [testBit_clrBit_ne hk] at h

theorem testBit_ne_zero {n k : ℕ} (h : n.testBit k = true) : 0 < n := by
  rcases Nat.eq_zero_or_pos n with h0 | h0
  · subst h0; simp at h
  · exact h0

/-- Row of named cut thresholds for one pT bin of a 2-prong hypothesis
(columns massMin, massMax, d0d0, cosp of the LabeledArray). -/
structure CutRow2P where
  massMin : ℚ
  massMax : ℚ
  d0d0 : ℚ
  cosp : ℚ

/-- Row of named cut thresholds for one pT bin of a 3-prong hypothesis
(columns massMin, massMax, cosp, decL of the LabeledArray). -/
structure CutRow3P where
  massMin : ℚ
  massMax : ℚ
  cosp : ℚ
  decL : ℚ

/-- Configuration of the HfTrackIndexSkimsCreator task: debug flag, pT
tolerance, and the per-hypothesis pT-bin edges and cut tables (read-only
after init). Hypothesis index and bin index are naturals; only indices
below n2ProngDecays / n3ProngDecays and valid bins are ever read. -/
structure SkimCfg where
  debug : Bool
  pTTolerance : ℚ
  pTBins2Prong : ℕ → List ℚ
  cut2Prong : ℕ → ℕ → CutRow2P
  pTBins3Prong : ℕ → List ℚ
  cut3Prong : ℕ → ℕ → CutRow3P

/-- Evaluation state threaded through the candidate selections: the debug
cut-status matrix (hypothesis index → stage index → still passing), the
per-hypothesis which-mass-hypothesis-matched values, and the selection
bitmask isSelected. -/
structure SelState where
  cutStatus : ℕ → ℕ → Bool
  whichHypo : ℕ → ℤ
  isSelected : ℕ

/-- Set entry (i, j) of the cut-status matrix to false. -/
def setCS (cs : ℕ → ℕ → Bool) (i j : ℕ) : ℕ → ℕ → Bool :=
  Function.update cs i (Function.update (cs i) j false)

/-- Kinematic inputs of a 2-prong candidate tuple.
Modelled from the spec: the squared invariant masses (RecoDecay::M2 under
the two mass-assignment orderings, per hypothesis) and the combined
transverse momentum (RecoDecay::Pt of the summed prong momenta) are
computed by framework headers outside this repository; the spec treats
them as opaque derived kinematics, so they enter here as inputs.
The impact parameters dcaXY of the two daughters are table columns. -/
structure Prong2Kine where
  dcaXY0 : ℚ
  dcaXY1 : ℚ
  ptComb : ℚ
  m2 : ℕ → ℚ × ℚ

/-- Kinematic inputs of a 3-prong candidate tuple.
Modelled from the spec: squared invariant masses and combined transverse
momentum as in Prong2Kine (opaque derived kinematics). -/
structure Prong3Kine where
  ptComb : ℚ
  m2 : ℕ → ℚ × ℚ

/-- Modelled from the spec: the pT-bin lookup findBin (defined in the
framework analysis-core headers, outside the sources of this repository).
Given bin edges and a value, it returns the zero-based index i such that
edges[i] <= pT < edges[i+1], or the sentinel -1 when pT lies outside
[edges[0], edges[k]). Helper: scan the upper edges from start index i. -/
def findBinAux (pT : ℚ) : List ℚ → ℕ → ℤ
  | [], _ => -1
  | e :: es, i => if pT < e then (i : ℤ) else findBinAux pT es (i + 1)

/-- Modelled from the spec: the pT-bin lookup findBin, see findBinAux. -/
def findBin (edges : List ℚ) (pT : ℚ) : ℤ :=
  match edges with
  | [] => -1
  | e0 :: rest => if pT < e0 then -1 else findBinAux pT rest 0

/-- Invariant-mass stage of is2ProngPreselected (one hypothesis i):
set whichHypo[i] = 3, then, when the hypothesis is still live (or debug)
and the mass window is enabled (massMin >= 0 and massMax > 0), drop the
orderings whose squared mass falls outside [massMin^2, massMax^2) and
clear the hypothesis bit when neither ordering survives. -/
def massStage2P (dbg : Bool) (i : ℕ) (r : CutRow2P) (m0 m1 : ℚ) (s : SelState) : SelState :=
  let s1 : SelState := { s with whichHypo := Function.update s.whichHypo i 3 }
  let min2 := r.massMin ^ 2
  let max2 := r.massMax ^ 2
  if (dbg || s1.isSelected.testBit i) && decide (0 ≤ r.massMin) && decide (0 < r.massMax) then
    let wh1 : ℤ := if m0 < min2 ∨ max2 ≤ m0 then 3 - 1 else 3
    let wh2 : ℤ := if m1 < min2 ∨ max2 ≤ m1 then wh1 - 2 else wh1
    let s2 : SelState := { s1 with whichHypo := Function.update s1.whichHypo i wh2 }
    if wh2 = 0 then
      { s2 with
        isSelected := clrBit s2.isSelected i,
        cutStatus := if dbg then setCS s2.cutStatus i 1 else s2.cutStatus }
    else s2
  else s1

/-- Impact-parameter-product stage of is2ProngPreselected (one hypothesis i):
when the hypothesis is still live (or debug), clear its bit if the product
of the daughter dcaXY values exceeds the d0d0 threshold. -/
def impParStage2P (dbg : Bool) (i : ℕ) (r : CutRow2P) (d0prod : ℚ) (s : SelState) : SelState :=
  if dbg || s.isSelected.testBit i then
    if r.d0d0 < d0prod then
      { s with
        isSelected := clrBit s.isSelected i,
        cutStatus := if dbg then setCS s.cutStatus i 2 else s.cutStatus }
    else s
  else s

/-- Loop body of is2ProngPreselected for hypothesis i: look up the pT bin
of the combined pT plus tolerance; on the sentinel -1 clear the bit and
record stage 0, otherwise run the invariant-mass stage and then the
impact-parameter-product stage on the thresholds of that bin. -/
def step2P (cfg : SkimCfg) (inp : Prong2Kine) (i : ℕ) (s : SelState) : SelState :=
  let pT := inp.ptComb + cfg.pTTolerance
  let pTBin := findBin (cfg.pTBins2Prong i) pT
  if pTBin = -1 then
    { s with
      isSelected := clrBit s.isSelected i,
      cutStatus := if cfg.debug then setCS s.cutStatus i 0 else s.cutStatus }
  else
    let r := cfg.cut2Prong i pTBin.toNat
    impParStage2P cfg.debug i r (inp.dcaXY0 * inp.dcaXY1)
      (massStage2P cfg.debug i r (inp.m2 i).1 (inp.m2 i).2 s)

/-- Selections for 2-prong candidates before vertex reconstruction:
iterate the per-hypothesis loop body over all 2-prong hypotheses. -/
def is2ProngPreselected (cfg : SkimCfg) (inp : Prong2Kine) (s : SelState) : SelState :=
  (List.range n2ProngDecays).foldl (fun t i => step2P cfg inp i t) s

/-- Invariant-mass stage of is3ProngPreselected (one hypothesis i);
identical logic to massStage2P with the 3-prong thresholds. -/
def massStage3P (dbg : Bool) (i : ℕ) (r : CutRow3P) (m0 m1 : ℚ) (s : SelState) : SelState :=
  let s1 : SelState := { s with whichHypo := Function.update s.whichHypo i 3 }
  let min2 := r.massMin ^ 2
  let max2 := r.massMax ^ 2
  if (dbg || s1.isSelected.testBit i) && decide (0 ≤ r.massMin) && decide (0 < r.massMax) then
    let wh1 : ℤ := if m0 < min2 ∨ max2 ≤ m0 then 3 - 1 else 3
    let wh2 : ℤ := if m1 < min2 ∨ max2 ≤ m1 then wh1 - 2 else wh1
    let s2 : SelState := { s1 with whichHypo := Function.update s1.whichHypo i wh2 }
    if wh2 = 0 then
      { s2 with
        isSelected := clrBit s2.isSelected i,
        cutStatus := if dbg then setCS s2.cutStatus i 1 else s2.cutStatus }
    else s2
  else s1

/-- Loop body of is3ProngPreselected for hypothesis i: pT-bin lookup on the
combined pT plus tolerance, then the invariant-mass stage (3-prong
preselection has no impact-parameter stage). -/
def step3P (cfg : SkimCfg) (inp : Prong3Kine) (i : ℕ) (s : SelState) : SelState :=
  let pT := inp.ptComb + cfg.pTTolerance
  let pTBin := findBin (cfg.pTBins3Prong i) pT
  if pTBin = -1 then
    { s with
      isSelected := clrBit s.isSelected i,
      cutStatus := if cfg.debug then setCS s.cutStatus i 0 else s.cutStatus }
  else
    let r := cfg.cut3Prong i pTBin.toNat
    massStage3P cfg.debug i r (inp.m2 i).1 (inp.m2 i).2 s

/-- Selections for 3-prong candidates before vertex reconstruction. -/
def is3ProngPreselected (cfg : SkimCfg) (inp : Prong3Kine) (s : SelState) : SelState :=
  (List.range n3ProngDecays).foldl (fun t i => step3P cfg inp i t) s

/-- Pointing-angle stage of is2ProngSelected (one hypothesis i): when the
hypothesis is still live (or debug), clear its bit if the cosine of the
pointing angle falls below the cosp threshold (debug cut-status stage 3).
cpa (RecoDecay::CPA) is an opaque derived kinematic input, as in the spec. -/
def cospStage2P (dbg : Bool) (i : ℕ) (r : CutRow2P) (cpa : ℚ) (s : SelState) : SelState :=
  if dbg || s.isSelected.testBit i then
    if cpa < r.cosp then
      { s with
        isSelected := clrBit s.isSelected i,
        cutStatus := if dbg then setCS s.cutStatus i 3 else s.cutStatus }
    else s
  else s

/-- Loop body of is2ProngSelected for hypothesis i: pT-bin lookup on the
fitted candidate pT (no tolerance), then the pointing-angle stage. -/
def stepPost2P (cfg : SkimCfg) (ptFit cpa : ℚ) (i : ℕ) (s : SelState) : SelState :=
  let pTBin := findBin (cfg.pTBins2Prong i) ptFit
  if pTBin = -1 then
    { s with
      isSelected := clrBit s.isSelected i,
      cutStatus := if cfg.debug then setCS s.cutStatus i 0 else s.cutStatus }
  else
    cospStage2P cfg.debug i (cfg.cut2Prong i pTBin.toNat) cpa s

/-- Selections for 2-prong candidates after vertex reconstruction: guarded
by debug or a non-zero bitmask, iterate the pointing-angle loop body. -/
def is2ProngSelected (cfg : SkimCfg) (ptFit cpa : ℚ) (s : SelState) : SelState :=
  if cfg.debug || 0 < s.isSelected then
    (List.range n2ProngDecays).foldl (fun t i => stepPost2P cfg ptFit cpa i t) s
  else s

/-- Pointing-angle stage of is3ProngSelected (one hypothesis i), debug
cut-status stage 2. cpa (RecoDecay::CPA) is an opaque derived kinematic
input, as in the spec. -/
def cospStage3P (dbg : Bool) (i : ℕ) (r : CutRow3P) (cpa : ℚ) (s : SelState) : SelState :=
  if dbg || s.isSelected.testBit i then
    if cpa < r.cosp then
      { s with
        isSelected := clrBit s.isSelected i,
        cutStatus := if dbg then setCS s.cutStatus i 2 else s.cutStatus }
    else s
  else s

/-- Decay-length stage of is3ProngSelected (one hypothesis i), debug
cut-status stage 3. decLen (RecoDecay::distance between the production and
decay vertices) is an opaque derived kinematic input, as in the spec. -/
def decLenStage3P (dbg : Bool) (i : ℕ) (r : CutRow3P) (decLen : ℚ) (s : SelState) : SelState :=
  if dbg || s.isSelected.testBit i then
    if decLen < r.decL then
      { s with
        isSelected := clrBit s.isSelected i,
        cutStatus := if dbg then setCS s.cutStatus i 3 else s.cutStatus }
    else s
  else s

/-- Loop body of is3ProngSelected for hypothesis i: pT-bin lookup on the
fitted candidate pT, then the pointing-angle stage and the decay-length
stage. -/
def stepPost3P (cfg : SkimCfg) (ptFit cpa decLen : ℚ) (i : ℕ) (s : SelState) : SelState :=
  let pTBin := findBin (cfg.pTBins3Prong i) ptFit
  if pTBin = -1 then
    { s with
      isSelected := clrBit s.isSelected i,
      cutStatus := if cfg.debug then setCS s.cutStatus i 0 else s.cutStatus }
  else
    let r := cfg.cut3Prong i pTBin.toNat
    decLenStage3P cfg.debug i r decLen (cospStage3P cfg.debug i r cpa s)

/-- Selections for 3-prong candidates after vertex reconstruction. -/
def is3ProngSelected (cfg : SkimCfg) (ptFit cpa decLen : ℚ) (s : SelState) : SelState :=
  if cfg.debug || 0 < s.isSelected then
    (List.range n3ProngDecays).foldl (fun t i => stepPost3P cfg ptFit cpa decLen i t) s
  else s

/-- Track row as seen by the skims-creator process loop: the signed inverse
transverse momentum signed1Pt (its sign is the charge sign) and the
per-candidate-type selection flags isSelProng written by HfTagSelTracks. -/
structure Track where
  signed1Pt : ℚ
  isSelProng : ℕ

instance : Inhabited Track := ⟨⟨0, 0⟩⟩

/-- CandidateType::Cand2Prong. -/
def cand2Prong : ℕ := 0

/-- CandidateType::Cand3Prong. -/
def cand3Prong : ℕ := 1

/-- TESTBIT(track.isSelProng(), CandidateType::Cand2Prong). -/
def sel2Prong (t : Track) : Bool := t.isSelProng.testBit cand2Prong

/-- TESTBIT(track.isSelProng(), CandidateType::Cand3Prong). -/
def sel3Prong (t : Track) : Bool := t.isSelProng.testBit cand3Prong

/-- The 2-prong tuples (as pairs of row indices) enumerated by the process
loops: the outer loop skips tracks with signed1Pt < 0 and tracks with
neither prong flag, the inner loop skips tracks with signed1Pt > 0 and
tracks with neither flag, and the pair is passed on when both tracks have
the 2-prong flag. -/
def tuples2 (ts : List Track) : List (ℕ × ℕ) :=
  (List.range ts.length).flatMap fun p =>
    let tp := ts.getD p default
    if tp.signed1Pt < 0 then [] else
    if !sel2Prong tp && !sel3Prong tp then [] else
    (List.range ts.length).flatMap fun n =>
      let tn := ts.getD n default
      if 0 < tn.signed1Pt then [] else
      if !sel2Prong tn && !sel3Prong tn then [] else
      if sel2Prong tp && sel2Prong tn then [(p, n)] else []

/-- The 3-prong tuples (as triples of row indices, in the emission order of
the table rows) enumerated by the process loops when do3prong is on: inside
each (positive, negative) pair with both 3-prong flags and at least 2
tracks, a second positive loop starting one past the first positive track
yields (pos1, neg1, pos2), and a second negative loop starting one past the
first negative track yields (neg1, pos1, neg2). -/
def tuples3 (ts : List Track) : List (ℕ × ℕ × ℕ) :=
  (List.range ts.length).flatMap fun p =>
    let tp := ts.getD p default
    if tp.signed1Pt < 0 then [] else
    if !sel2Prong tp && !sel3Prong tp then [] else
    (List.range ts.length).flatMap fun n =>
      let tn := ts.getD n default
      if 0 < tn.signed1Pt then [] else
      if !sel2Prong tn && !sel3Prong tn then [] else
      if !sel3Prong tp || !sel3Prong tn then [] else
      if ts.length < 2 then [] else
      ((List.range' (p + 1) (ts.length - (p + 1))).flatMap fun p2 =>
        let tp2 := ts.getD p2 default
        if tp2.signed1Pt < 0 then [] else
        if !sel3Prong tp2 then [] else
        [(p, n, p2)]) ++
      ((List.range' (n + 1) (ts.length - (n + 1))).flatMap fun n2 =>
        let tn2 := ts.getD n2 default
        if 0 < tn2.signed1Pt then [] else
        if !sel3Prong tn2 then [] else
        [(n, p, n2)])

/-- Initial selection state of one 2-prong candidate evaluation: cut-status
matrix all-true, which-hypothesis values not yet assigned (the C++ array is
uninitialized until the mass stage writes it; 0 here), bitmask all set. -/
def initState2 : SelState :=
  { cutStatus := fun _ _ => true, whichHypo := fun _ => 0, isSelected := n2ProngBit }

/-- Initial selection state of one 3-prong candidate evaluation. -/
def initState3 : SelState :=
  { cutStatus := fun _ _ => true, whichHypo := fun _ => 0, isSelected := n3ProngBit }

/-- Per-tuple 2-prong pipeline of the process function: preselection, then
(only when the bitmask is non-zero and the vertex fit succeeded, fit2 being
the return value of DCAFitterN::process, an opaque external solver per the
spec) the post-vertex selection; a table row carrying the final bitmask is
emitted only when that final bitmask is non-zero. -/
def processTuple2 (cfg : SkimCfg) (inp : Prong2Kine) (fit2 : ℕ) (ptFit cpa : ℚ) :
    Option ℕ :=
  let s1 := is2ProngPreselected cfg inp initState2
  if 0 < s1.isSelected && 0 < fit2 then
    let s2 := is2ProngSelected cfg ptFit cpa s1
    if 0 < s2.isSelected then some s2.isSelected else none
  else none

/-- Per-tuple 3-prong pipeline of the process function: preselection, then
skip unless debug or non-zero bitmask, skip when the vertex fit failed
(fit3 = 0), post-vertex selection, skip unless debug or non-zero bitmask,
and otherwise emit the table row carrying the final bitmask. -/
def processTuple3 (cfg : SkimCfg) (inp : Prong3Kine) (fit3 : ℕ) (ptFit cpa decLen : ℚ) :
    Option ℕ :=
  let s1 := is3ProngPreselected cfg inp initState3
  if !cfg.debug && s1.isSelected = 0 then none
  else if fit3 = 0 then none
  else
    let s2 := is3ProngSelected cfg ptFit cpa decLen s1
    if !cfg.debug && s2.isSelected = 0 then none
    else some s2.isSelected

/-- Rows of the 2-prong index table produced for a track collection: one row
(positive index, negative index, final bitmask) for each enumerated tuple
whose pipeline emitted a candidate. The per-tuple kinematics, fit outcome
and post-fit quantities are supplied per tuple. -/
def process2Rows (cfg : SkimCfg) (kin : ℕ × ℕ → Prong2Kine) (fit : ℕ × ℕ → ℕ)
    (ptFit cpa : ℕ × ℕ → ℚ) (ts : List Track) : List (ℕ × ℕ × ℕ) :=
  (tuples2 ts).filterMap fun pr =>
    (processTuple2 cfg (kin pr) (fit pr) (ptFit pr) (cpa pr)).map fun sel =>
      (pr.1, pr.2, sel)

/-- Named cut columns used by the skims creator. -/
inductive CutVar
  | massMin
  | massMax
  | d0d0
  | cosp
  | decL

/-- LabeledArray of cut values for one hypothesis: per-bin per-column values
plus the column map resolving a cut name to its column index. -/
structure LabeledCuts where
  vals : ℕ → ℕ → ℚ
  colmap : CutVar → ℕ

/-- Contents of the function-local static index vectors of
is2ProngPreselected (massMinIndex, massMaxIndex, d0d0Index). -/
structure Cache2P where
  massMinIndex : List ℕ
  massMaxIndex : List ℕ
  d0d0Index : List ℕ

/-- The cacheIndices lambda of is2ProngPreselected: resize the three index
vectors and fill them from the column maps of the cut tables (this runs on
every invocation, overwriting whatever the static vectors held). -/
def cacheIndices2P (tables : ℕ → LabeledCuts) : Cache2P :=
  { massMinIndex := (List.range n2ProngDecays).map fun i => (tables i).colmap CutVar.massMin,
    massMaxIndex := (List.range n2ProngDecays).map fun i => (tables i).colmap CutVar.massMax,
    d0d0Index := (List.range n2ProngDecays).map fun i => (tables i).colmap CutVar.d0d0 }

/-- Cut rows of hypothesis i as read through the cached column indices. -/
def cutRowCached (tables : ℕ → LabeledCuts) (c : Cache2P) (i bin : ℕ) : CutRow2P :=
  { massMin := (tables i).vals bin (c.massMinIndex.getD i 0),
    massMax := (tables i).vals bin (c.massMaxIndex.getD i 0),
    d0d0 := (tables i).vals bin (c.d0d0Index.getD i 0),
    cosp := (tables i).vals bin ((tables i).colmap CutVar.cosp) }

/-- Cut rows of hypothesis i as read by direct column-map lookups. -/
def cutRowDirect (tables : ℕ → LabeledCuts) (i bin : ℕ) : CutRow2P :=
  { massMin := (tables i).vals bin ((tables i).colmap CutVar.massMin),
    massMax := (tables i).vals bin ((tables i).colmap CutVar.massMax),
    d0d0 := (tables i).vals bin ((tables i).colmap CutVar.d0d0),
    cosp := (tables i).vals bin ((tables i).colmap CutVar.cosp) }

/-- Configuration assembled from labelled cut tables and a cache state. -/
def cfgOfTables (dbg : Bool) (pTTol : ℚ) (pTBins : ℕ → List ℚ)
    (tables : ℕ → LabeledCuts) (c : Cache2P) : SkimCfg :=
  { debug := dbg, pTTolerance := pTTol, pTBins2Prong := pTBins,
    cut2Prong := cutRowCached tables c,
    pTBins3Prong := fun _ => [], cut3Prong := fun _ _ => ⟨0, 0, 0, 0⟩ }

/-- Configuration assembled from labelled cut tables with direct lookups. -/
def cfgDirect (dbg : Bool) (pTTol : ℚ) (pTBins : ℕ → List ℚ)
    (tables : ℕ → LabeledCuts) : SkimCfg :=
  { debug := dbg, pTTolerance := pTTol, pTBins2Prong := pTBins,
    cut2Prong := cutRowDirect tables,
    pTBins3Prong := fun _ => [], cut3Prong := fun _ _ => ⟨0, 0, 0, 0⟩ }

/-- The full is2ProngPreselected call including its hidden function-local
static state: the previous content prev of the static index vectors is
overwritten by the cacheIndices call, the evaluation runs on the refreshed
indices, and the new static state is returned alongside the result. -/
def is2ProngPreselectedCached (prev : Cache2P) (dbg : Bool) (pTTol : ℚ)
    (pTBins : ℕ → List ℚ) (tables : ℕ → LabeledCuts)
    (inp : Prong2Kine) (s : SelState) : SelState × Cache2P :=
  let c := cacheIndices2P tables
  (is2ProngPreselected (cfgOfTables dbg pTTol pTBins tables c) inp s, c)

theorem findBinAux_eq_neg_one_iff (pT : ℚ) (es : List ℚ) (i : ℕ) :
    findBinAux pT es i = -1 ↔ ∀ e ∈ es, e ≤ pT := by
  induction es generalizing i with
  | nil => simp [findBinAux]
  | cons e es ih =>
    simp only [findBinAux]
    by_cases h : pT < e
    · rw [if_pos h]
      constructor
      · intro hc; omega
      · intro hall; exact absurd (hall e (List.mem_cons_self e es)) (not_le.mpr h)
    · rw [if_neg h]
      rw [ih]
      constructor
      · intro hall x hx
        rcases List.mem_cons.mp hx with hx | hx
        · exact hx ▸ le_of_not_lt h
        · exact hall x hx
      · intro hall x hx; exact hall x (List.mem_cons_of_mem _ hx)

theorem findBinAux_shape (pT : ℚ) (es : List ℚ) (i : ℕ) :
    findBinAux pT es i = -1 ∨ ∃ m : ℕ, findBinAux pT es i = (m : ℤ) := by
  induction es generalizing i with
  | nil => exact Or.inl rfl
  | cons e es ih =>
    simp only [findBinAux]
    by_cases h : pT < e
    · exact Or.inr ⟨i, by rw [if_pos h]⟩
    · rw [if_neg h]; exact ih (i + 1)

theorem findBinAux_lower (pT : ℚ) (es : List ℚ) (i m : ℕ)
    (h : findBinAux pT es i = (m : ℤ)) : i ≤ m := by
  induction es generalizing i with
  | nil => exfalso; simp only [findBinAux] at h; omega
  | cons e es ih =>
    simp only [findBinAux] at h
    by_cases hc : pT < e
    · rw [if_pos hc] at h; omega
    · rw [if_neg hc] at h
      have := ih (i + 1) h
      omega

theorem findBinAux_spec_cast (pT : ℚ) (es : List ℚ) (i m : ℕ)
    (h : findBinAux pT es i = (m : ℤ)) :
    i ≤ m ∧ m - i < es.length ∧ pT < es.getD (m - i) 0 ∧ ∀ k < m - i, es.getD k 0 ≤ pT := by
  induction es generalizing i with
  | nil => exfalso; simp only [findBinAux] at h; omega
  | cons e es ih =>
    simp only [findBinAux] at h
    by_cases hc : pT < e
    · rw [if_pos hc] at h
      have him : i = m := by omega
      subst him
      refine ⟨le_refl i, by simp, by simpa using hc, ?_⟩
      intro k hk; omega
    · rw [if_neg hc] at h
      obtain ⟨h1, h2, h3, h4⟩ := ih (i + 1) h
      have him : i ≤ m := by omega
      have hmi : m - i = (m - (i + 1)) + 1 := by omega
      refine ⟨him, by simp only [List.length_cons]; omega, by rw [hmi]; simpa using h3, ?_⟩
      intro k hk
      rcases Nat.eq_zero_or_eq_succ_pred k with hk0 | hk0
      · subst hk0; simpa using le_of_not_lt hc
      · rw [hk0]
        simp only [List.getD_cons_succ]
        exact h4 _ (by omega)

theorem findBinAux_eq_cast_of (pT : ℚ) (es : List ℚ) (i j : ℕ)
    (hlen : j < es.length) (hj : pT < es.getD j 0)
    (hbefore : ∀ k < j, es.getD k 0 ≤ pT) :
    findBinAux pT es i = ((i + j : ℕ) : ℤ) := by
  induction es generalizing i j with
  | nil => simp at hlen
  | cons e es ih =>
    simp only [findBinAux]
    rcases Nat.eq_zero_or_eq_succ_pred j with hj0 | hj0
    · subst hj0
      simp only [List.getD_cons_zero] at hj
      rw [if_pos hj]; omega
    · have he : e ≤ pT := by simpa using hbefore 0 (by omega)
      rw [if_neg (not_lt.mpr he)]
      rw [hj0] at hlen hj
      simp only [List.length_cons] at hlen
      simp only [List.getD_cons_succ] at hj
      have := ih (i + 1) (j - 1) (by omega) hj
        (fun k hk => by simpa using hbefore (k + 1) (by omega))
      rw [this]
      omega

theorem findBinAux_mono {pT pT' : ℚ} (hle : pT ≤ pT') (es : List ℚ) (i m : ℕ)
    (h : findBinAux pT' es i = (m : ℤ)) :
    ∃ m' : ℕ, findBinAux pT es i = (m' : ℤ) ∧ m' ≤ m := by
  induction es generalizing i with
  | nil => exfalso; simp only [findBinAux] at h; omega
  | cons e es ih =>
    simp only [findBinAux] at h ⊢
    by_cases hc : pT' < e
    · rw [if_pos hc] at h
      rw [if_pos (lt_of_le_of_lt hle hc)]
      exact ⟨i, rfl, by omega⟩
    · rw [if_neg hc] at h
      by_cases hp : pT < e
      · rw [if_pos hp]
        have := findBinAux_lower pT' es (i + 1) m h
        exact ⟨i, rfl, by omega⟩
      · rw [if_neg hp]
        exact ih (i + 1) h

theorem findBin_shape (edges : List ℚ) (pT : ℚ) :
    findBin edges pT = -1 ∨ ∃ b : ℕ, findBin edges pT = (b : ℤ) := by
  cases edges with
  | nil => exact Or.inl rfl
  | cons e0 rest =>
    simp only [findBin]
    by_cases h : pT < e0
    · rw [if_pos h]; exact Or.inl rfl
    · rw [if_neg h]; exact findBinAux_shape pT rest 0

theorem sorted_getD_le_getD {edges : List ℚ} (hs : edges.Sorted (· < ·))
    {a b : ℕ} (hab : a ≤ b) (hb : b < edges.length) :
    edges.getD a 0 ≤ edges.getD b 0 := by
  rcases Nat.eq_or_lt_of_le hab with rfl | hlt
  · exact le_refl _
  · rw [List.getD_eq_getElem _ _ (lt_of_le_of_lt hab hb), List.getD_eq_getElem _ _ hb]
    exact le_of_lt ((List.pairwise_iff_get.mp hs) ⟨a, lt_of_le_of_lt hab hb⟩ ⟨b, hb⟩ hlt)

theorem sorted_le_last {edges : List ℚ} (hs : edges.Sorted (· < ·))
    {x : ℚ} (hx : x ∈ edges) : x ≤ edges.getD (edges.length - 1) 0 := by
  obtain ⟨k, hk, hkx⟩ := List.mem_iff_getElem.mp hx
  rw [← hkx, ← List.getD_eq_getElem edges 0 hk]
  exact sorted_getD_le_getD hs (by omega) (by omega)

theorem findBin_eq_cast_iff {edges : List ℚ} (hs : edges.Sorted (· < ·))
    {i : ℕ} (hi : i + 1 < edges.length) (pT : ℚ) :
    findBin edges pT = (i : ℤ) ↔ edges.getD i 0 ≤ pT ∧ pT < edges.getD (i + 1) 0 := by
  cases edges with
  | nil => simp at hi
  | cons e0 rest =>
    simp only [findBin]
    have hlen : i < rest.length := by simp only [List.length_cons] at hi; omega
    constructor
    · intro h
      by_cases h0 : pT < e0
      · rw [if_pos h0] at h; omega
      · rw [if_neg h0] at h
        obtain ⟨-, h2, h3, h4⟩ := findBinAux_spec_cast pT rest 0 i h
        simp only [Nat.sub_zero] at h2 h3 h4
        constructor
        · rcases Nat.eq_zero_or_eq_succ_pred i with hi0 | hi0
          · subst hi0; simpa using le_of_not_lt h0
          · rw [hi0]; simp only [List.getD_cons_succ]; exact h4 (i - 1) (by omega)
        · simpa using h3
    · rintro ⟨h1, h2⟩
      have h0 : e0 ≤ pT := by
        calc e0 = (e0 :: rest).getD 0 0 := rfl
          _ ≤ (e0 :: rest).getD i 0 :=
            sorted_getD_le_getD hs (Nat.zero_le i) (by simp only [List.length_cons]; omega)
          _ ≤ pT := h1
      rw [if_neg (not_lt.mpr h0)]
      have := findBinAux_eq_cast_of pT rest 0 i hlen (by simpa using h2)
        (fun k hk => by
          calc rest.getD k 0 = (e0 :: rest).getD (k + 1) 0 := by simp
            _ ≤ (e0 :: rest).getD i 0 :=
              sorted_getD_le_getD hs (by omega) (by simp only [List.length_cons]; omega)
            _ ≤ pT := h1)
      rw [this]
      omega

theorem findBin_eq_neg_one_iff {edges : List ℚ} (hs : edges.Sorted (· < ·))
    (hne : edges ≠ []) (pT : ℚ) :
    findBin edges pT = -1 ↔ pT < edges.getD 0 0 ∨ edges.getD (edges.length - 1) 0 ≤ pT := by
  cases edges with
  | nil => exact absurd rfl hne
  | cons e0 rest =>
    simp only [findBin]
    by_cases h0 : pT < e0
    · rw [if_pos h0]; simp [h0]
    · rw [if_neg h0, findBinAux_eq_neg_one_iff]
      constructor
      · intro hall
        right
        cases rest with
        | nil => simpa using le_of_not_lt h0
        | cons e1 r1 =>
          apply hall
          have h1 : (e0 :: e1 :: r1).length - 1 = ((e1 :: r1).length - 1) + 1 := by
            simp only [List.length_cons]; omega
          rw [h1, List.getD_cons_succ,
            List.getD_eq_getElem _ _ (by simp only [List.length_cons]; omega)]
          exact List.getElem_mem _
      · rintro (hc | hc)
        · exact absurd hc h0
        · intro x hx
          exact le_trans (sorted_le_last hs (List.mem_cons_of_mem _ hx)) hc

theorem findBin_mono {edges : List ℚ} {pT pT' : ℚ}
    (hne : findBin edges pT' ≠ -1) (hle : pT ≤ pT') :
    findBin edges pT ≤ findBin edges pT' := by
  cases edges with
  | nil => simp [findBin] at hne
  | cons e0 rest =>
    simp only [findBin] at hne ⊢
    by_cases h0 : pT' < e0
    · rw [if_pos h0] at hne; exact absurd rfl hne
    · rw [if_neg h0] at hne ⊢
      rcases findBinAux_shape pT' rest 0 with hsh | ⟨m, hm⟩
      · exact absurd hsh hne
      · by_cases hp : pT < e0
        · rw [if_pos hp, hm]; omega
        · rw [if_neg hp]
          obtain ⟨m', hm', hmm⟩ := findBinAux_mono hle rest 0 m hm
          rw [hm', hm]
          omega

theorem testBit_of_cases {a b : ℕ} {i : ℕ} (h : a = b ∨ a = clrBit b i) {k : ℕ}
    (hk : a.testBit k = true) : b.testBit k = true := by
  rcases h with h | h
  · exact h ▸ hk
  · exact testBit_clrBit_le (h ▸ hk)

theorem massStage2P_whichHypo_ne {i j : ℕ} (h : j ≠ i) (dbg : Bool) (r : CutRow2P)
    (m0 m1 : ℚ) (s : SelState) :
    (massStage2P dbg i r m0 m1 s).whichHypo j = s.whichHypo j := by
  simp only [massStage2P]
  split_ifs <;> simp [Function.update_noteq h]

theorem massStage2P_testBit_ne {i j : ℕ} (h : j ≠ i) (dbg : Bool) (r : CutRow2P)
    (m0 m1 : ℚ) (s : SelState) :
    (massStage2P dbg i r m0 m1 s).isSelected.testBit j = s.isSelected.testBit j := by
  simp only [massStage2P]
  split_ifs <;> simp [testBit_clrBit_ne h]

theorem massStage2P_cutStatus_ne {i j : ℕ} (h : j ≠ i) (dbg : Bool) (r : CutRow2P)
    (m0 m1 : ℚ) (s : SelState) :
    (massStage2P dbg i r m0 m1 s).cutStatus j = s.cutStatus j := by
  simp only [massStage2P, setCS]
  split_ifs <;> simp [Function.update_noteq h]

theorem massStage2P_isSelected_cases (dbg : Bool) (i : ℕ) (r : CutRow2P)
    (m0 m1 : ℚ) (s : SelState) :
    (massStage2P dbg i r m0 m1 s).isSelected = s.isSelected ∨
      (massStage2P dbg i r m0 m1 s).isSelected = clrBit s.isSelected i := by
  simp only [massStage2P]
  split_ifs <;> simp

theorem impParStage2P_whichHypo (dbg : Bool) (i : ℕ) (r : CutRow2P)
    (d0prod : ℚ) (s : SelState) :
    (impParStage2P dbg i r d0prod s).whichHypo = s.whichHypo := by
  simp only [impParStage2P]
  split_ifs <;> rfl

theorem impParStage2P_testBit_ne {i j : ℕ} (h : j ≠ i) (dbg : Bool) (r : CutRow2P)
    (d0prod : ℚ) (s : SelState) :
    (impParStage2P dbg i r d0prod s).isSelected.testBit j = s.isSelected.testBit j := by
  simp only [impParStage2P]
  split_ifs <;> simp [testBit_clrBit_ne h]

theorem impParStage2P_cutStatus_ne {i j : ℕ} (h : j ≠ i) (dbg : Bool) (r : CutRow2P)
    (d0prod : ℚ) (s : SelState) :
    (impParStage2P dbg i r d0prod s).cutStatus j = s.cutStatus j := by
  simp only [impParStage2P, setCS]
  split_ifs <;> simp [Function.update_noteq h]

theorem impParStage2P_isSelected_cases (dbg : Bool) (i : ℕ) (r : CutRow2P)
    (d0prod : ℚ) (s : SelState) :
    (impParStage2P dbg i r d0prod s).isSelected = s.isSelected ∨
      (impParStage2P dbg i r d0prod s).isSelected = clrBit s.isSelected i := by
  simp only [impParStage2P]
  split_ifs <;> simp

theorem step2P_whichHypo_ne {i j : ℕ} (h : j ≠ i) (cfg : SkimCfg) (inp : Prong2Kine)
    (s : SelState) : (step2P cfg inp i s).whichHypo j = s.whichHypo j := by
  simp only [step2P]
  split_ifs <;>
    first
      | rfl
      | rw [impParStage2P_whichHypo, massStage2P_whichHypo_ne h]

theorem step2P_testBit_ne {i j : ℕ} (h : j ≠ i) (cfg : SkimCfg) (inp : Prong2Kine)
    (s : SelState) : (step2P cfg inp i s).isSelected.testBit j = s.isSelected.testBit j := by
  simp only [step2P]
  split_ifs <;>
    first
      | simp [testBit_clrBit_ne h]
      | rw [impParStage2P_testBit_ne h, massStage2P_testBit_ne h]

theorem step2P_cutStatus_ne {i j : ℕ} (h : j ≠ i) (cfg : SkimCfg) (inp : Prong2Kine)
    (s : SelState) : (step2P cfg inp i s).cutStatus j = s.cutStatus j := by
  simp only [step2P, setCS]
  split_ifs <;>
    simp [impParStage2P_cutStatus_ne h, massStage2P_cutStatus_ne h, Function.update_noteq h]

theorem step2P_testBit_le (cfg : SkimCfg) (inp : Prong2Kine) (i : ℕ) (s : SelState)
    {k : ℕ} (hk : (step2P cfg inp i s).isSelected.testBit k = true) :
    s.isSelected.testBit k = true := by
  revert hk
  simp only [step2P]
  split_ifs <;> intro hk <;>
    first
      | exact testBit_of_cases (Or.inr rfl) hk
      | exact testBit_of_cases (massStage2P_isSelected_cases _ _ _ _ _ _)
          (testBit_of_cases (impParStage2P_isSelected_cases _ _ _ _ _) hk)

theorem massStage3P_whichHypo_ne {i j : ℕ} (h : j ≠ i) (dbg : Bool) (r : CutRow3P)
    (m0 m1 : ℚ) (s : SelState) :
    (massStage3P dbg i r m0 m1 s).whichHypo j = s.whichHypo j := by
  simp only [massStage3P]
  split_ifs <;> simp [Function.update_noteq h]

theorem massStage3P_testBit_ne {i j : ℕ} (h : j ≠ i) (dbg : Bool) (r : CutRow3P)
    (m0 m1 : ℚ) (s : SelState) :
    (massStage3P dbg i r m0 m1 s).isSelected.testBit j = s.isSelected.testBit j := by
  simp only [massStage3P]
  split_ifs <;> simp [testBit_clrBit_ne h]

theorem massStage3P_cutStatus_ne {i j : ℕ} (h : j ≠ i) (dbg : Bool) (r : CutRow3P)
    (m0 m1 : ℚ) (s : SelState) :
    (massStage3P dbg i r m0 m1 s).cutStatus j = s.cutStatus j := by
  simp only [massStage3P, setCS]
  split_ifs <;> simp [Function.update_noteq h]

theorem massStage3P_isSelected_cases (dbg : Bool) (i : ℕ) (r : CutRow3P)
    (m0 m1 : ℚ) (s : SelState) :
    (massStage3P dbg i r m0 m1 s).isSelected = s.isSelected ∨
      (massStage3P dbg i r m0 m1 s).isSelected = clrBit s.isSelected i := by
  simp only [massStage3P]
  split_ifs <;> simp

theorem step3P_whichHypo_ne {i j : ℕ} (h : j ≠ i) (cfg : SkimCfg) (inp : Prong3Kine)
    (s : SelState) : (step3P cfg inp i s).whichHypo j = s.whichHypo j := by
  simp only [step3P]
  split_ifs <;>
    first
      | rfl
      | rw [massStage3P_whichHypo_ne h]

theorem step3P_testBit_ne {i j : ℕ} (h : j ≠ i) (cfg : SkimCfg) (inp : Prong3Kine)
    (s : SelState) : (step3P cfg inp i s).isSelected.testBit j = s.isSelected.testBit j := by
  simp only [step3P]
  split_ifs <;>
    first
      | simp [testBit_clrBit_ne h]
      | rw [massStage3P_testBit_ne h]

theorem step3P_cutStatus_ne {i j : ℕ} (h : j ≠ i) (cfg : SkimCfg) (inp : Prong3Kine)
    (s : SelState) : (step3P cfg inp i s).cutStatus j = s.cutStatus j := by
  simp only [step3P, setCS]
  split_ifs <;> simp [massStage3P_cutStatus_ne h, Function.update_noteq h]

theorem step3P_testBit_le (cfg : SkimCfg) (inp : Prong3Kine) (i : ℕ) (s : SelState)
    {k : ℕ} (hk : (step3P cfg inp i s).isSelected.testBit k = true) :
    s.isSelected.testBit k = true := by
  revert hk
  simp only [step3P]
  split_ifs <;> intro hk <;>
    first
      | exact testBit_of_cases (Or.inr rfl) hk
      | exact testBit_of_cases (massStage3P_isSelected_cases _ _ _ _ _ _) hk

theorem cospStage2P_testBit_ne {i j : ℕ} (h : j ≠ i) (dbg : Bool) (r : CutRow2P)
    (cpa : ℚ) (s : SelState) :
    (cospStage2P dbg i r cpa s).isSelected.testBit j = s.isSelected.testBit j := by
  simp only [cospStage2P]
  split_ifs <;> simp [testBit_clrBit_ne h]

theorem cospStage2P_whichHypo (dbg : Bool) (i : ℕ) (r : CutRow2P) (cpa : ℚ)
    (s : SelState) : (cospStage2P dbg i r cpa s).whichHypo = s.whichHypo := by
  simp only [cospStage2P]
  split_ifs <;> rfl

theorem cospStage2P_cutStatus_ne {i j : ℕ} (h : j ≠ i) (dbg : Bool) (r : CutRow2P)
    (cpa : ℚ) (s : SelState) :
    (cospStage2P dbg i r cpa s).cutStatus j = s.cutStatus j := by
  simp only [cospStage2P, setCS]
  split_ifs <;> simp [Function.update_noteq h]

theorem cospStage2P_isSelected_cases (dbg : Bool) (i : ℕ) (r : CutRow2P) (cpa : ℚ)
    (s : SelState) :
    (cospStage2P dbg i r cpa s).isSelected = s.isSelected ∨
      (cospStage2P dbg i r cpa s).isSelected = clrBit s.isSelected i := by
  simp only [cospStage2P]
  split_ifs <;> simp

theorem cospStage3P_testBit_ne {i j : ℕ} (h : j ≠ i) (dbg : Bool) (r : CutRow3P)
    (cpa : ℚ) (s : SelState) :
    (cospStage3P dbg i r cpa s).isSelected.testBit j = s.isSelected.testBit j := by
  simp only [cospStage3P]
  split_ifs <;> simp [testBit_clrBit_ne h]

theorem cospStage3P_cutStatus_ne {i j : ℕ} (h : j ≠ i) (dbg : Bool) (r : CutRow3P)
    (cpa : ℚ) (s : SelState) :
    (cospStage3P dbg i r cpa s).cutStatus j = s.cutStatus j := by
  simp only [cospStage3P, setCS]
  split_ifs <;> simp [Function.update_noteq h]

theorem cospStage3P_isSelected_cases (dbg : Bool) (i : ℕ) (r : CutRow3P) (cpa : ℚ)
    (s : SelState) :
    (cospStage3P dbg i r cpa s).isSelected = s.isSelected ∨
      (cospStage3P dbg i r cpa s).isSelected = clrBit s.isSelected i := by
  simp only [cospStage3P]
  split_ifs <;> simp

theorem decLenStage3P_testBit_ne {i j : ℕ} (h : j ≠ i) (dbg : Bool) (r : CutRow3P)
    (decLen : ℚ) (s : SelState) :
    (decLenStage3P dbg i r decLen s).isSelected.testBit j = s.isSelected.testBit j := by
  simp only [decLenStage3P]
  split_ifs <;> simp [testBit_clrBit_ne h]

theorem decLenStage3P_cutStatus_ne {i j : ℕ} (h : j ≠ i) (dbg : Bool) (r : CutRow3P)
    (decLen : ℚ) (s : SelState) :
    (decLenStage3P dbg i r decLen s).cutStatus j = s.cutStatus j := by
  simp only [decLenStage3P, setCS]
  split_ifs <;> simp [Function.update_noteq h]

theorem decLenStage3P_isSelected_cases (dbg : Bool) (i : ℕ) (r : CutRow3P)
    (decLen : ℚ) (s : SelState) :
    (decLenStage3P dbg i r decLen s).isSelected = s.isSelected ∨
      (decLenStage3P dbg i r decLen s).isSelected = clrBit s.isSelected i := by
  simp only [decLenStage3P]
  split_ifs <;> simp

theorem stepPost2P_testBit_ne {i j : ℕ} (h : j ≠ i) (cfg : SkimCfg) (ptFit cpa : ℚ)
    (s : SelState) :
    (stepPost2P cfg ptFit cpa i s).isSelected.testBit j = s.isSelected.testBit j := by
  simp only [stepPost2P]
  split_ifs <;>
    first
      | simp [testBit_clrBit_ne h]
      | rw [cospStage2P_testBit_ne h]

theorem stepPost2P_cutStatus_ne {i j : ℕ} (h : j ≠ i) (cfg : SkimCfg) (ptFit cpa : ℚ)
    (s : SelState) : (stepPost2P cfg ptFit cpa i s).cutStatus j = s.cutStatus j := by
  simp only [stepPost2P, setCS]
  split_ifs <;>
    first
      | simp [Function.update_noteq h]
      | rw [cospStage2P_cutStatus_ne h]

theorem stepPost2P_testBit_le (cfg : SkimCfg) (ptFit cpa : ℚ) (i : ℕ) (s : SelState)
    {k : ℕ} (hk : (stepPost2P cfg ptFit cpa i s).isSelected.testBit k = true) :
    s.isSelected.testBit k = true := by
  revert hk
  simp only [stepPost2P]
  split_ifs <;> intro hk <;>
    first
      | exact testBit_of_cases (Or.inr rfl) hk
      | exact testBit_of_cases (cospStage2P_isSelected_cases _ _ _ _ _) hk

theorem stepPost3P_testBit_ne {i j : ℕ} (h : j ≠ i) (cfg : SkimCfg)
    (ptFit cpa decLen : ℚ) (s : SelState) :
    (stepPost3P cfg ptFit cpa decLen i s).isSelected.testBit j = s.isSelected.testBit j := by
  simp only [stepPost3P]
  split_ifs <;>
    first
      | simp [testBit_clrBit_ne h]
      | rw [decLenStage3P_testBit_ne h, cospStage3P_testBit_ne h]

theorem stepPost3P_cutStatus_ne {i j : ℕ} (h : j ≠ i) (cfg : SkimCfg)
    (ptFit cpa decLen : ℚ) (s : SelState) :
    (stepPost3P cfg ptFit cpa decLen i s).cutStatus j = s.cutStatus j := by
  simp only [stepPost3P, setCS]
  split_ifs <;>
    first
      | simp [Function.update_noteq h]
      | rw [decLenStage3P_cutStatus_ne h, cospStage3P_cutStatus_ne h]

theorem stepPost3P_testBit_le (cfg : SkimCfg) (ptFit cpa decLen : ℚ) (i : ℕ)
    (s : SelState) {k : ℕ}
    (hk : (stepPost3P cfg ptFit cpa decLen i s).isSelected.testBit k = true) :
    s.isSelected.testBit k = true := by
  revert hk
  simp only [stepPost3P]
  split_ifs <;> intro hk <;>
    first
      | exact testBit_of_cases (Or.inr rfl) hk
      | exact testBit_of_cases (cospStage3P_isSelected_cases _ _ _ _ _)
          (testBit_of_cases (decLenStage3P_isSelected_cases _ _ _ _ _) hk)

theorem is2ProngPreselected_unfold (cfg : SkimCfg) (inp : Prong2Kine) (s : SelState) :
    is2ProngPreselected cfg inp s =
      step2P cfg inp 2 (step2P cfg inp 1 (step2P cfg inp 0 s)) := rfl

theorem is3ProngPreselected_unfold (cfg : SkimCfg) (inp : Prong3Kine) (s : SelState) :
    is3ProngPreselected cfg inp s =
      step3P cfg inp 3 (step3P cfg inp 2 (step3P cfg inp 1 (step3P cfg inp 0 s))) := rfl

theorem is2ProngPreselected_testBit_le (cfg : SkimCfg) (inp : Prong2Kine) (s : SelState)
    {k : ℕ} (hk : (is2ProngPreselected cfg inp s).isSelected.testBit k = true) :
    s.isSelected.testBit k = true := by
  rw [is2ProngPreselected_unfold] at hk
  exact step2P_testBit_le _ _ _ _
    (step2P_testBit_le _ _ _ _ (step2P_testBit_le _ _ _ _ hk))

theorem is3ProngPreselected_testBit_le (cfg : SkimCfg) (inp : Prong3Kine) (s : SelState)
    {k : ℕ} (hk : (is3ProngPreselected cfg inp s).isSelected.testBit k = true) :
    s.isSelected.testBit k = true := by
  rw [is3ProngPreselected_unfold] at hk
  exact step3P_testBit_le _ _ _ _ (step3P_testBit_le _ _ _ _
    (step3P_testBit_le _ _ _ _ (step3P_testBit_le _ _ _ _ hk)))

theorem is2ProngSelected_testBit_le (cfg : SkimCfg) (ptFit cpa : ℚ) (s : SelState)
    {k : ℕ} (hk : (is2ProngSelected cfg ptFit cpa s).isSelected.testBit k = true) :
    s.isSelected.testBit k = true := by
  revert hk
  simp only [is2ProngSelected]
  split_ifs
  · show (List.foldl _ s [0, 1, 2]).isSelected.testBit k = true → _
    simp only [List.foldl_cons, List.foldl_nil]
    intro hk
    exact stepPost2P_testBit_le _ _ _ _ _
      (stepPost2P_testBit_le _ _ _ _ _ (stepPost2P_testBit_le _ _ _ _ _ hk))
  · exact fun hk => hk

theorem is3ProngSelected_testBit_le (cfg : SkimCfg) (ptFit cpa decLen : ℚ) (s : SelState)
    {k : ℕ} (hk : (is3ProngSelected cfg ptFit cpa decLen s).isSelected.testBit k = true) :
    s.isSelected.testBit k = true := by
  revert hk
  simp only [is3ProngSelected]
  split_ifs
  · show (List.foldl _ s [0, 1, 2, 3]).isSelected.testBit k = true → _
    simp only [List.foldl_cons, List.foldl_nil]
    intro hk
    exact stepPost3P_testBit_le _ _ _ _ _ _ (stepPost3P_testBit_le _ _ _ _ _ _
      (stepPost3P_testBit_le _ _ _ _ _ _ (stepPost3P_testBit_le _ _ _ _ _ _ hk)))
  · exact fun hk => hk

theorem pass_iff_not_fail {a b m : ℚ} : (a ≤ m ∧ m < b) ↔ ¬(m < a ∨ b ≤ m) :=
  Iff.symm (by rw [not_or, not_lt, not_le])

theorem massStage2P_whichHypo_enabled (dbg : Bool) {i : ℕ} {r : CutRow2P} (m0 m1 : ℚ)
    {s : SelState} (hguard : dbg = true ∨ s.isSelected.testBit i = true)
    (hmin : 0 ≤ r.massMin) (hmax : 0 < r.massMax) :
    (massStage2P dbg i r m0 m1 s).whichHypo i =
      (if r.massMin ^ 2 ≤ m0 ∧ m0 < r.massMax ^ 2 then 1 else 0) +
      (if r.massMin ^ 2 ≤ m1 ∧ m1 < r.massMax ^ 2 then 2 else 0) := by
  have hg : (dbg || s.isSelected.testBit i) = true := by
    rcases hguard with h | h <;> simp [h]
  have hp0 : (r.massMin ^ 2 ≤ m0 ∧ m0 < r.massMax ^ 2) ↔
      ¬(m0 < r.massMin ^ 2 ∨ r.massMax ^ 2 ≤ m0) := pass_iff_not_fail
  have hp1 : (r.massMin ^ 2 ≤ m1 ∧ m1 < r.massMax ^ 2) ↔
      ¬(m1 < r.massMin ^ 2 ∨ r.massMax ^ 2 ≤ m1) := pass_iff_not_fail
  by_cases hm0 : m0 < r.massMin ^ 2 ∨ r.massMax ^ 2 ≤ m0 <;>
    by_cases hm1 : m1 < r.massMin ^ 2 ∨ r.massMax ^ 2 ≤ m1 <;>
      simp [massStage2P, hg, hmin, hmax, hm0, hm1, hp0, hp1]

theorem massStage3P_whichHypo_enabled (dbg : Bool) {i : ℕ} {r : CutRow3P} (m0 m1 : ℚ)
    {s : SelState} (hguard : dbg = true ∨ s.isSelected.testBit i = true)
    (hmin : 0 ≤ r.massMin) (hmax : 0 < r.massMax) :
    (massStage3P dbg i r m0 m1 s).whichHypo i =
      (if r.massMin ^ 2 ≤ m0 ∧ m0 < r.massMax ^ 2 then 1 else 0) +
      (if r.massMin ^ 2 ≤ m1 ∧ m1 < r.massMax ^ 2 then 2 else 0) := by
  have hg : (dbg || s.isSelected.testBit i) = true := by
    rcases hguard with h | h <;> simp [h]
  have hp0 : (r.massMin ^ 2 ≤ m0 ∧ m0 < r.massMax ^ 2) ↔
      ¬(m0 < r.massMin ^ 2 ∨ r.massMax ^ 2 ≤ m0) := pass_iff_not_fail
  have hp1 : (r.massMin ^ 2 ≤ m1 ∧ m1 < r.massMax ^ 2) ↔
      ¬(m1 < r.massMin ^ 2 ∨ r.massMax ^ 2 ≤ m1) := pass_iff_not_fail
  by_cases hm0 : m0 < r.massMin ^ 2 ∨ r.massMax ^ 2 ≤ m0 <;>
    by_cases hm1 : m1 < r.massMin ^ 2 ∨ r.massMax ^ 2 ≤ m1 <;>
      simp [massStage3P, hg, hmin, hmax, hm0, hm1, hp0, hp1]

theorem step2P_of_bin_eq (cfg : SkimCfg) (inp : Prong2Kine) {i b : ℕ} (s : SelState)
    (hb : findBin (cfg.pTBins2Prong i) (inp.ptComb + cfg.pTTolerance) = (b : ℤ)) :
    step2P cfg inp i s =
      impParStage2P cfg.debug i (cfg.cut2Prong i b) (inp.dcaXY0 * inp.dcaXY1)
        (massStage2P cfg.debug i (cfg.cut2Prong i b) (inp.m2 i).1 (inp.m2 i).2 s) := by
  simp only [step2P, hb]
  rw [if_neg (by omega)]
  norm_num

theorem step2P_of_bin_neg (cfg : SkimCfg) (inp : Prong2Kine) {i : ℕ} (s : SelState)
    (hb : findBin (cfg.pTBins2Prong i) (inp.ptComb + cfg.pTTolerance) = -1) :
    step2P cfg inp i s =
      { s with
        isSelected := clrBit s.isSelected i,
        cutStatus := if cfg.debug then setCS s.cutStatus i 0 else s.cutStatus } := by
  simp only [step2P, hb]
  rw [if_pos trivial]

theorem step3P_of_bin_eq (cfg : SkimCfg) (inp : Prong3Kine) {i b : ℕ} (s : SelState)
    (hb : findBin (cfg.pTBins3Prong i) (inp.ptComb + cfg.pTTolerance) = (b : ℤ)) :
    step3P cfg inp i s =
      massStage3P cfg.debug i (cfg.cut3Prong i b) (inp.m2 i).1 (inp.m2 i).2 s := by
  simp only [step3P, hb]
  rw [if_neg (by omega)]
  norm_num

theorem step3P_of_bin_neg (cfg : SkimCfg) (inp : Prong3Kine) {i : ℕ} (s : SelState)
    (hb : findBin (cfg.pTBins3Prong i) (inp.ptComb + cfg.pTTolerance) = -1) :
    step3P cfg inp i s =
      { s with
        isSelected := clrBit s.isSelected i,
        cutStatus := if cfg.debug then setCS s.cutStatus i 0 else s.cutStatus } := by
  simp only [step3P, hb]
  rw [if_pos trivial]

theorem step2P_whichHypo_enabled (cfg : SkimCfg) (inp : Prong2Kine) {i b : ℕ}
    {s : SelState}
    (hb : findBin (cfg.pTBins2Prong i) (inp.ptComb + cfg.pTTolerance) = (b : ℤ))
    (hguard : cfg.debug = true ∨ s.isSelected.testBit i = true)
    (hmin : 0 ≤ (cfg.cut2Prong i b).massMin) (hmax : 0 < (cfg.cut2Prong i b).massMax) :
    (step2P cfg inp i s).whichHypo i =
      (if (cfg.cut2Prong i b).massMin ^ 2 ≤ (inp.m2 i).1 ∧
          (inp.m2 i).1 < (cfg.cut2Prong i b).massMax ^ 2 then 1 else 0) +
      (if (cfg.cut2Prong i b).massMin ^ 2 ≤ (inp.m2 i).2 ∧
          (inp.m2 i).2 < (cfg.cut2Prong i b).massMax ^ 2 then 2 else 0) := by
  rw [step2P_of_bin_eq cfg inp s hb, impParStage2P_whichHypo]
  exact massStage2P_whichHypo_enabled cfg.debug _ _ hguard hmin hmax

theorem step3P_whichHypo_enabled (cfg : SkimCfg) (inp : Prong3Kine) {i b : ℕ}
    {s : SelState}
    (hb : findBin (cfg.pTBins3Prong i) (inp.ptComb + cfg.pTTolerance) = (b : ℤ))
    (hguard : cfg.debug = true ∨ s.isSelected.testBit i = true)
    (hmin : 0 ≤ (cfg.cut3Prong i b).massMin) (hmax : 0 < (cfg.cut3Prong i b).massMax) :
    (step3P cfg inp i s).whichHypo i =
      (if (cfg.cut3Prong i b).massMin ^ 2 ≤ (inp.m2 i).1 ∧
          (inp.m2 i).1 < (cfg.cut3Prong i b).massMax ^ 2 then 1 else 0) +
      (if (cfg.cut3Prong i b).massMin ^ 2 ≤ (inp.m2 i).2 ∧
          (inp.m2 i).2 < (cfg.cut3Prong i b).massMax ^ 2 then 2 else 0) := by
  rw [step3P_of_bin_eq cfg inp s hb]
  exact massStage3P_whichHypo_enabled cfg.debug _ _ hguard hmin hmax

/-- Concrete configuration used to instantiate hypotheses of the
claim theorems: one 2-prong/3-prong bin layout [0, 5, 10), mass window
[1, 2], d0d0 threshold 1, disabled pointing-angle and decay-length cuts. -/
def cfgW : SkimCfg :=
  { debug := false, pTTolerance := 1 / 10,
    pTBins2Prong := fun _ => [0, 5, 10],
    cut2Prong := fun _ _ => ⟨1, 2, 1, -2⟩,
    pTBins3Prong := fun _ => [0, 5, 10],
    cut3Prong := fun _ _ => ⟨1, 2, -2, -1⟩ }

/-- Concrete 2-prong kinematics: combined pT 3, squared masses exactly at
the squared lower threshold (ordering 0) and squared upper threshold
(ordering 1) of the mass window of cfgW. -/
def inpW : Prong2Kine :=
  { dcaXY0 := 0, dcaXY1 := 0, ptComb := 3, m2 := fun _ => (1, 4) }

/-- C1: for every candidate evaluation (2-prong and 3-prong), whenever the
pT bin is valid, the hypothesis is live (or debug is on) and the mass
window is enabled, the invariant-mass stage accepts mass ordering 0 iff
massMin^2 <= m_0^2 < massMax^2 and ordering 1 iff
massMin^2 <= m_1^2 < massMax^2 (half-open interval, inclusive lower bound
and exclusive upper bound), recorded as whichHypo = (ordering 0 passes) +
2 * (ordering 1 passes). -/
theorem claim1_mass_window :
    (∀ (cfg : SkimCfg) (inp : Prong2Kine) (s : SelState) (i b : ℕ),
      i < n2ProngDecays →
      findBin (cfg.pTBins2Prong i) (inp.ptComb + cfg.pTTolerance) = (b : ℤ) →
      (cfg.debug = true ∨ s.isSelected.testBit i = true) →
      0 ≤ (cfg.cut2Prong i b).massMin → 0 < (cfg.cut2Prong i b).massMax →
      (is2ProngPreselected cfg inp s).whichHypo i =
        (if (cfg.cut2Prong i b).massMin ^ 2 ≤ (inp.m2 i).1 ∧
            (inp.m2 i).1 < (cfg.cut2Prong i b).massMax ^ 2 then 1 else 0) +
        (if (cfg.cut2Prong i b).massMin ^ 2 ≤ (inp.m2 i).2 ∧
            (inp.m2 i).2 < (cfg.cut2Prong i b).massMax ^ 2 then 2 else 0)) ∧
    (∀ (cfg : SkimCfg) (inp : Prong3Kine) (s : SelState) (i b : ℕ),
      i < n3ProngDecays →
      findBin (cfg.pTBins3Prong i) (inp.ptComb + cfg.pTTolerance) = (b : ℤ) →
      (cfg.debug = true ∨ s.isSelected.testBit i = true) →
      0 ≤ (cfg.cut3Prong i b).massMin → 0 < (cfg.cut3Prong i b).massMax →
      (is3ProngPreselected cfg inp s).whichHypo i =
        (if (cfg.cut3Prong i b).massMin ^ 2 ≤ (inp.m2 i).1 ∧
            (inp.m2 i).1 < (cfg.cut3Prong i b).massMax ^ 2 then 1 else 0) +
        (if (cfg.cut3Prong i b).massMin ^ 2 ≤ (inp.m2 i).2 ∧
            (inp.m2 i).2 < (cfg.cut3Prong i b).massMax ^ 2 then 2 else 0)) := by
  constructor
  · intro cfg inp s i b hi hb hguard hmin hmax
    have hi3 : i < 3 := hi
    rw [is2ProngPreselected_unfold]
    interval_cases i
    · rw [step2P_whichHypo_ne (by norm_num : (0 : ℕ) ≠ 2),
        step2P_whichHypo_ne (by norm_num : (0 : ℕ) ≠ 1)]
      exact step2P_whichHypo_enabled cfg inp hb hguard hmin hmax
    · rw [step2P_whichHypo_ne (by norm_num : (1 : ℕ) ≠ 2)]
      refine step2P_whichHypo_enabled cfg inp hb ?_ hmin hmax
      rcases hguard with h | h
      · exact Or.inl h
      · right; rw [step2P_testBit_ne (by norm_num : (1 : ℕ) ≠ 0)]; exact h
    · refine step2P_whichHypo_enabled cfg inp hb ?_ hmin hmax
      rcases hguard with h | h
      · exact Or.inl h
      · right
        rw [step2P_testBit_ne (by norm_num : (2 : ℕ) ≠ 1),
          step2P_testBit_ne (by norm_num : (2 : ℕ) ≠ 0)]
        exact h
  · intro cfg inp s i b hi hb hguard hmin hmax
    have hi4 : i < 4 := hi
    rw [is3ProngPreselected_unfold]
    interval_cases i
    · rw [step3P_whichHypo_ne (by norm_num : (0 : ℕ) ≠ 3),
        step3P_whichHypo_ne (by norm_num : (0 : ℕ) ≠ 2),
        step3P_whichHypo_ne (by norm_num : (0 : ℕ) ≠ 1)]
      exact step3P_whichHypo_enabled cfg inp hb hguard hmin hmax
    · rw [step3P_whichHypo_ne (by norm_num : (1 : ℕ) ≠ 3),
        step3P_whichHypo_ne (by norm_num : (1 : ℕ) ≠ 2)]
      refine step3P_whichHypo_enabled cfg inp hb ?_ hmin hmax
      rcases hguard with h | h
      · exact Or.inl h
      · right; rw [step3P_testBit_ne (by norm_num : (1 : ℕ) ≠ 0)]; exact h
    · rw [step3P_whichHypo_ne (by norm_num : (2 : ℕ) ≠ 3)]
      refine step3P_whichHypo_enabled cfg inp hb ?_ hmin hmax
      rcases hguard with h | h
      · exact Or.inl h
      · right
        rw [step3P_testBit_ne (by norm_num : (2 : ℕ) ≠ 1),
          step3P_testBit_ne (by norm_num : (2 : ℕ) ≠ 0)]
        exact h
    · refine step3P_whichHypo_enabled cfg inp hb ?_ hmin hmax
      rcases hguard with h | h
      · exact Or.inl h
      · right
        rw [step3P_testBit_ne (by norm_num : (3 : ℕ) ≠ 2),
          step3P_testBit_ne (by norm_num : (3 : ℕ) ≠ 1),
          step3P_testBit_ne (by norm_num : (3 : ℕ) ≠ 0)]
        exact h

/-- Witness for C1: with the concrete cfgW window [1, 2] (squared window
[1, 4)) and squared masses exactly 1 (= squared lower threshold, ordering
0) and 4 (= squared upper threshold, ordering 1), ordering 0 is accepted
and ordering 1 is rejected, so whichHypo = 1. -/
theorem claim1_mass_window_witness :
    (is2ProngPreselected cfgW inpW initState2).whichHypo 0 = 1 := by
  have hb : findBin (cfgW.pTBins2Prong 0) (inpW.ptComb + cfgW.pTTolerance) = ((0 : ℕ) : ℤ) := by
    norm_num [cfgW, inpW, findBin, findBinAux]
  have h := claim1_mass_window.1 cfgW inpW initState2 0 0 (by decide) hb
    (Or.inr (by decide)) (by norm_num [cfgW]) (by norm_num [cfgW])
  rw [h]
  norm_num [cfgW, inpW]

/-- C2: the selection bitmask starts with all hypothesis bits set
(n2ProngBit / n3ProngBit), and every candidate-selection stage (2-prong and
3-prong, pre-vertex and post-vertex) only clears bits: any bit set after a
stage was already set before it, so a cleared bit is never re-set by a
subsequent stage. -/
theorem claim2_bitmask_monotone :
    (∀ i, i < n2ProngDecays → n2ProngBit.testBit i = true) ∧
    (∀ i, i < n3ProngDecays → n3ProngBit.testBit i = true) ∧
    (∀ (cfg : SkimCfg) (inp : Prong2Kine) (s : SelState) (k : ℕ),
      (is2ProngPreselected cfg inp s).isSelected.testBit k = true →
      s.isSelected.testBit k = true) ∧
    (∀ (cfg : SkimCfg) (inp : Prong3Kine) (s : SelState) (k : ℕ),
      (is3ProngPreselected cfg inp s).isSelected.testBit k = true →
      s.isSelected.testBit k = true) ∧
    (∀ (cfg : SkimCfg) (ptFit cpa : ℚ) (s : SelState) (k : ℕ),
      (is2ProngSelected cfg ptFit cpa s).isSelected.testBit k = true →
      s.isSelected.testBit k = true) ∧
    (∀ (cfg : SkimCfg) (ptFit cpa decLen : ℚ) (s : SelState) (k : ℕ),
      (is3ProngSelected cfg ptFit cpa decLen s).isSelected.testBit k = true →
      s.isSelected.testBit k = true) := by
  refine ⟨?_, ?_, ?_, ?_, ?_, ?_⟩
  · intro i hi
    have hi3 : i < 3 := hi
    interval_cases i <;> decide
  · intro i hi
    have hi4 : i < 4 := hi
    interval_cases i <;> decide
  · intro cfg inp s k hk; exact is2ProngPreselected_testBit_le cfg inp s hk
  · intro cfg inp s k hk; exact is3ProngPreselected_testBit_le cfg inp s hk
  · intro cfg ptFit cpa s k hk; exact is2ProngSelected_testBit_le cfg ptFit cpa s hk
  · intro cfg ptFit cpa decLen s k hk
    exact is3ProngSelected_testBit_le cfg ptFit cpa decLen s hk

/-- Evaluation of the 2-prong preselection on the concrete cfgW / inpW
input: every hypothesis passes all pre-vertex cuts, so the bitmask keeps
its initial value 7. -/
theorem is2ProngPreselected_W_isSelected :
    (is2ProngPreselected cfgW inpW initState2).isSelected = 7 := by
  rw [is2ProngPreselected_unfold]
  norm_num [step2P, massStage2P, impParStage2P, cfgW, inpW, initState2, findBin,
    findBinAux, clrBit, setCS, n2ProngBit, n2ProngDecays, Nat.testBit_zero,
    Nat.testBit_succ]

/-- Witness for C2: the all-set initial bitmask has bit 0 set, and on the
concrete cfgW / inpW evaluation the surviving bit 0 of the result implies
(via the monotone-clearing theorem) bit 0 of the initial state. -/
theorem claim2_bitmask_monotone_witness :
    n2ProngBit.testBit 0 = true ∧ initState2.isSelected.testBit 0 = true := by
  constructor
  · exact claim2_bitmask_monotone.1 0 (by decide)
  · refine claim2_bitmask_monotone.2.2.1 cfgW inpW initState2 0 ?_
    rw [is2ProngPreselected_W_isSelected]
    decide

theorem massStage2P_of_disabled {r : CutRow2P} (hd : r.massMin < 0 ∨ r.massMax ≤ 0)
    (dbg : Bool) (i : ℕ) (m0 m1 : ℚ) (s : SelState) :
    massStage2P dbg i r m0 m1 s = { s with whichHypo := Function.update s.whichHypo i 3 } := by
  simp only [massStage2P]
  rcases hd with h | h
  · rw [if_neg (by simp [Bool.and_eq_true, decide_eq_true_eq, not_le.mpr h])]
  · rw [if_neg (by simp [Bool.and_eq_true, decide_eq_true_eq, not_lt.mpr h])]

theorem massStage3P_of_disabled {r : CutRow3P} (hd : r.massMin < 0 ∨ r.massMax ≤ 0)
    (dbg : Bool) (i : ℕ) (m0 m1 : ℚ) (s : SelState) :
    massStage3P dbg i r m0 m1 s = { s with whichHypo := Function.update s.whichHypo i 3 } := by
  simp only [massStage3P]
  rcases hd with h | h
  · rw [if_neg (by simp [Bool.and_eq_true, decide_eq_true_eq, not_le.mpr h])]
  · rw [if_neg (by simp [Bool.and_eq_true, decide_eq_true_eq, not_lt.mpr h])]

theorem step2P_whichHypo_disabled (cfg : SkimCfg) (inp : Prong2Kine) {i b : ℕ}
    {s : SelState}
    (hb : findBin (cfg.pTBins2Prong i) (inp.ptComb + cfg.pTTolerance) = (b : ℤ))
    (hd : (cfg.cut2Prong i b).massMin < 0 ∨ (cfg.cut2Prong i b).massMax ≤ 0) :
    (step2P cfg inp i s).whichHypo i = 3 := by
  rw [step2P_of_bin_eq cfg inp s hb, impParStage2P_whichHypo,
    massStage2P_of_disabled hd]
  simp

theorem step3P_whichHypo_disabled (cfg : SkimCfg) (inp : Prong3Kine) {i b : ℕ}
    {s : SelState}
    (hb : findBin (cfg.pTBins3Prong i) (inp.ptComb + cfg.pTTolerance) = (b : ℤ))
    (hd : (cfg.cut3Prong i b).massMin < 0 ∨ (cfg.cut3Prong i b).massMax ≤ 0) :
    (step3P cfg inp i s).whichHypo i = 3 := by
  rw [step3P_of_bin_eq cfg inp s hb, massStage3P_of_disabled hd]
  simp

theorem step2P_m2_update_ne {i j : ℕ} (h : j ≠ i) (cfg : SkimCfg) (inp : Prong2Kine)
    (mv : ℚ × ℚ) (s : SelState) :
    step2P cfg { inp with m2 := Function.update inp.m2 i mv } j s = step2P cfg inp j s := by
  simp only [step2P, Function.update_noteq h]

theorem step3P_m2_update_ne {i j : ℕ} (h : j ≠ i) (cfg : SkimCfg) (inp : Prong3Kine)
    (mv : ℚ × ℚ) (s : SelState) :
    step3P cfg { inp with m2 := Function.update inp.m2 i mv } j s = step3P cfg inp j s := by
  simp only [step3P, Function.update_noteq h]

theorem step2P_m2_update_disabled (cfg : SkimCfg) (inp : Prong2Kine) {i b : ℕ}
    (s : SelState)
    (hb : findBin (cfg.pTBins2Prong i) (inp.ptComb + cfg.pTTolerance) = (b : ℤ))
    (hd : (cfg.cut2Prong i b).massMin < 0 ∨ (cfg.cut2Prong i b).massMax ≤ 0)
    (mv : ℚ × ℚ) :
    step2P cfg { inp with m2 := Function.update inp.m2 i mv } i s = step2P cfg inp i s := by
  have hb2 : findBin (cfg.pTBins2Prong i)
      (Prong2Kine.ptComb { inp with m2 := Function.update inp.m2 i mv } + cfg.pTTolerance) =
      (b : ℤ) := hb
  rw [step2P_of_bin_eq cfg _ s hb2, step2P_of_bin_eq cfg inp s hb,
    massStage2P_of_disabled hd, massStage2P_of_disabled hd]

theorem step3P_m2_update_disabled (cfg : SkimCfg) (inp : Prong3Kine) {i b : ℕ}
    (s : SelState)
    (hb : findBin (cfg.pTBins3Prong i) (inp.ptComb + cfg.pTTolerance) = (b : ℤ))
    (hd : (cfg.cut3Prong i b).massMin < 0 ∨ (cfg.cut3Prong i b).massMax ≤ 0)
    (mv : ℚ × ℚ) :
    step3P cfg { inp with m2 := Function.update inp.m2 i mv } i s = step3P cfg inp i s := by
  have hb2 : findBin (cfg.pTBins3Prong i)
      (Prong3Kine.ptComb { inp with m2 := Function.update inp.m2 i mv } + cfg.pTTolerance) =
      (b : ℤ) := hb
  rw [step3P_of_bin_eq cfg _ s hb2, step3P_of_bin_eq cfg inp s hb,
    massStage3P_of_disabled hd, massStage3P_of_disabled hd]

/-- C3: when the cut-table row of a hypothesis has a negative massMin or a
non-positive massMax (and the pT bin is valid), the invariant-mass stage is
skipped entirely: the which-hypothesis value is left at its default 3 (both
orderings treated as passing), the whole preselection result does not
depend on the squared masses of that hypothesis (no mass is computed), and
the mass stage leaves the selection bitmask untouched regardless of the
kinematics. Stated for both the 2-prong and the 3-prong preselection. -/
theorem claim3_disabled_mass_cut :
    (∀ (cfg : SkimCfg) (inp : Prong2Kine) (s : SelState) (i b : ℕ),
      i < n2ProngDecays →
      findBin (cfg.pTBins2Prong i) (inp.ptComb + cfg.pTTolerance) = (b : ℤ) →
      ((cfg.cut2Prong i b).massMin < 0 ∨ (cfg.cut2Prong i b).massMax ≤ 0) →
      (is2ProngPreselected cfg inp s).whichHypo i = 3) ∧
    (∀ (cfg : SkimCfg) (inp : Prong3Kine) (s : SelState) (i b : ℕ),
      i < n3ProngDecays →
      findBin (cfg.pTBins3Prong i) (inp.ptComb + cfg.pTTolerance) = (b : ℤ) →
      ((cfg.cut3Prong i b).massMin < 0 ∨ (cfg.cut3Prong i b).massMax ≤ 0) →
      (is3ProngPreselected cfg inp s).whichHypo i = 3) ∧
    (∀ (cfg : SkimCfg) (inp : Prong2Kine) (s : SelState) (i b : ℕ),
      i < n2ProngDecays →
      findBin (cfg.pTBins2Prong i) (inp.ptComb + cfg.pTTolerance) = (b : ℤ) →
      ((cfg.cut2Prong i b).massMin < 0 ∨ (cfg.cut2Prong i b).massMax ≤ 0) →
      ∀ mv : ℚ × ℚ,
        is2ProngPreselected cfg { inp with m2 := Function.update inp.m2 i mv } s =
          is2ProngPreselected cfg inp s) ∧
    (∀ (cfg : SkimCfg) (inp : Prong3Kine) (s : SelState) (i b : ℕ),
      i < n3ProngDecays →
      findBin (cfg.pTBins3Prong i) (inp.ptComb + cfg.pTTolerance) = (b : ℤ) →
      ((cfg.cut3Prong i b).massMin < 0 ∨ (cfg.cut3Prong i b).massMax ≤ 0) →
      ∀ mv : ℚ × ℚ,
        is3ProngPreselected cfg { inp with m2 := Function.update inp.m2 i mv } s =
          is3ProngPreselected cfg inp s) ∧
    (∀ (dbg : Bool) (i : ℕ) (r : CutRow2P) (m0 m1 : ℚ) (s : SelState),
      (r.massMin < 0 ∨ r.massMax ≤ 0) →
      (massStage2P dbg i r m0 m1 s).isSelected = s.isSelected) ∧
    (∀ (dbg : Bool) (i : ℕ) (r : CutRow3P) (m0 m1 : ℚ) (s : SelState),
      (r.massMin < 0 ∨ r.massMax ≤ 0) →
      (massStage3P dbg i r m0 m1 s).isSelected = s.isSelected) := by
  refine ⟨?_, ?_, ?_, ?_, ?_, ?_⟩
  · intro cfg inp s i b hi hb hd
    have hi3 : i < 3 := hi
    rw [is2ProngPreselected_unfold]
    interval_cases i
    · rw [step2P_whichHypo_ne (by norm_num : (0 : ℕ) ≠ 2),
        step2P_whichHypo_ne (by norm_num : (0 : ℕ) ≠ 1)]
      exact step2P_whichHypo_disabled cfg inp hb hd
    · rw [step2P_whichHypo_ne (by norm_num : (1 : ℕ) ≠ 2)]
      exact step2P_whichHypo_disabled cfg inp hb hd
    · exact step2P_whichHypo_disabled cfg inp hb hd
  · intro cfg inp s i b hi hb hd
    have hi4 : i < 4 := hi
    rw [is3ProngPreselected_unfold]
    interval_cases i
    · rw [step3P_whichHypo_ne (by norm_num : (0 : ℕ) ≠ 3),
        step3P_whichHypo_ne (by norm_num : (0 : ℕ) ≠ 2),
        step3P_whichHypo_ne (by norm_num : (0 : ℕ) ≠ 1)]
      exact step3P_whichHypo_disabled cfg inp hb hd
    · rw [step3P_whichHypo_ne (by norm_num : (1 : ℕ) ≠ 3),
        step3P_whichHypo_ne (by norm_num : (1 : ℕ) ≠ 2)]
      exact step3P_whichHypo_disabled cfg inp hb hd
    · rw [step3P_whichHypo_ne (by norm_num : (2 : ℕ) ≠ 3)]
      exact step3P_whichHypo_disabled cfg inp hb hd
    · exact step3P_whichHypo_disabled cfg inp hb hd
  · intro cfg inp s i b hi hb hd mv
    have hi3 : i < 3 := hi
    rw [is2ProngPreselected_unfold, is2ProngPreselected_unfold]
    interval_cases i
    · rw [step2P_m2_update_disabled cfg inp s hb hd mv,
        step2P_m2_update_ne (by norm_num : (1 : ℕ) ≠ 0),
        step2P_m2_update_ne (by norm_num : (2 : ℕ) ≠ 0)]
    · rw [step2P_m2_update_ne (by norm_num : (0 : ℕ) ≠ 1),
        step2P_m2_update_disabled cfg inp _ hb hd mv,
        step2P_m2_update_ne (by norm_num : (2 : ℕ) ≠ 1)]
    · rw [step2P_m2_update_ne (by norm_num : (0 : ℕ) ≠ 2),
        step2P_m2_update_ne (by norm_num : (1 : ℕ) ≠ 2),
        step2P_m2_update_disabled cfg inp _ hb hd mv]
  · intro cfg inp s i b hi hb hd mv
    have hi4 : i < 4 := hi
    rw [is3ProngPreselected_unfold, is3ProngPreselected_unfold]
    interval_cases i
    · rw [step3P_m2_update_disabled cfg inp s hb hd mv,
        step3P_m2_update_ne (by norm_num : (1 : ℕ) ≠ 0),
        step3P_m2_update_ne (by norm_num : (2 : ℕ) ≠ 0),
        step3P_m2_update_ne (by norm_num : (3 : ℕ) ≠ 0)]
    · rw [step3P_m2_update_ne (by norm_num : (0 : ℕ) ≠ 1),
        step3P_m2_update_disabled cfg inp _ hb hd mv,
        step3P_m2_update_ne (by norm_num : (2 : ℕ) ≠ 1),
        step3P_m2_update_ne (by norm_num : (3 : ℕ) ≠ 1)]
    · rw [step3P_m2_update_ne (by norm_num : (0 : ℕ) ≠ 2),
        step3P_m2_update_ne (by norm_num : (1 : ℕ) ≠ 2),
        step3P_m2_update_disabled cfg inp _ hb hd mv,
        step3P_m2_update_ne (by norm_num : (3 : ℕ) ≠ 2)]
    · rw [step3P_m2_update_ne (by norm_num : (0 : ℕ) ≠ 3),
        step3P_m2_update_ne (by norm_num : (1 : ℕ) ≠ 3),
        step3P_m2_update_ne (by norm_num : (2 : ℕ) ≠ 3),
        step3P_m2_update_disabled cfg inp _ hb hd mv]
  · intro dbg i r m0 m1 s hd
    rw [massStage2P_of_disabled hd]
  · intro dbg i r m0 m1 s hd
    rw [massStage3P_of_disabled hd]

/-- Concrete configuration with a disabled mass window (massMin = -1) for
every hypothesis; other thresholds as in cfgW. -/
def cfgD : SkimCfg :=
  { debug := false, pTTolerance := 1 / 10,
    pTBins2Prong := fun _ => [0, 5, 10],
    cut2Prong := fun _ _ => ⟨-1, 2, 1, -2⟩,
    pTBins3Prong := fun _ => [0, 5, 10],
    cut3Prong := fun _ _ => ⟨-1, 2, -2, -1⟩ }

/-- Witness for C3: with massMin = -1 the mass stage of the concrete cfgD
evaluation is skipped and whichHypo stays at its default 3. -/
theorem claim3_disabled_mass_cut_witness :
    (is2ProngPreselected cfgD inpW initState2).whichHypo 0 = 3 := by
  refine claim3_disabled_mass_cut.1 cfgD inpW initState2 0 0 (by decide) ?_ ?_
  · norm_num [cfgD, inpW, findBin, findBinAux]
  · left; norm_num [cfgD]

/-- C4: per-hypothesis stage skipping of the 2-prong preselection.
In non-debug mode, once the hypothesis bit is cleared the invariant-mass
stage does nothing beyond resetting whichHypo to 3 and the
impact-parameter stage does nothing at all (stages after the first failure
are skipped for that hypothesis only). In debug mode, the mass stage and
the impact-parameter stage execute regardless of the bitmask (no
hypothesis on isSelected below): starting from a true matrix entry, the
debug cut-status entry of the mass stage (resp. impact-parameter stage)
becomes false exactly when that cut fails. The pT-bin sentinel terminates
the hypothesis even in debug mode: the loop body stops after clearing the
bit and marking only the stage-1 (index 0) matrix entry. -/
theorem claim4_stage_skipping :
    (∀ (i : ℕ) (r : CutRow2P) (m0 m1 : ℚ) (s : SelState),
      s.isSelected.testBit i = false →
      massStage2P false i r m0 m1 s =
        { s with whichHypo := Function.update s.whichHypo i 3 }) ∧
    (∀ (i : ℕ) (r : CutRow2P) (d0prod : ℚ) (s : SelState),
      s.isSelected.testBit i = false →
      impParStage2P false i r d0prod s = s) ∧
    (∀ (i : ℕ) (r : CutRow2P) (m0 m1 : ℚ) (s : SelState),
      s.cutStatus i 1 = true →
      ((massStage2P true i r m0 m1 s).cutStatus i 1 = false ↔
        (0 ≤ r.massMin ∧ 0 < r.massMax ∧
          (m0 < r.massMin ^ 2 ∨ r.massMax ^ 2 ≤ m0) ∧
          (m1 < r.massMin ^ 2 ∨ r.massMax ^ 2 ≤ m1)))) ∧
    (∀ (i : ℕ) (r : CutRow2P) (d0prod : ℚ) (s : SelState),
      s.cutStatus i 2 = true →
      ((impParStage2P true i r d0prod s).cutStatus i 2 = false ↔ r.d0d0 < d0prod)) ∧
    (∀ (cfg : SkimCfg) (inp : Prong2Kine) (s : SelState) (i : ℕ),
      cfg.debug = true →
      findBin (cfg.pTBins2Prong i) (inp.ptComb + cfg.pTTolerance) = -1 →
      (step2P cfg inp i s).cutStatus i 0 = false ∧
        (∀ j, j ≠ 0 → (step2P cfg inp i s).cutStatus i j = s.cutStatus i j) ∧
        (step2P cfg inp i s).whichHypo = s.whichHypo ∧
        (step2P cfg inp i s).isSelected = clrBit s.isSelected i) := by
  refine ⟨?_, ?_, ?_, ?_, ?_⟩
  · intro i r m0 m1 s hbit
    simp only [massStage2P]
    rw [if_neg (by simp [hbit])]
  · intro i r d0prod s hbit
    simp only [impParStage2P]
    rw [if_neg (by simp [hbit])]
  · intro i r m0 m1 s hcs
    by_cases hmin : 0 ≤ r.massMin
    · by_cases hmax : 0 < r.massMax
      · by_cases hm0 : m0 < r.massMin ^ 2 ∨ r.massMax ^ 2 ≤ m0 <;>
          by_cases hm1 : m1 < r.massMin ^ 2 ∨ r.massMax ^ 2 ≤ m1 <;>
            norm_num [massStage2P, hmin, hmax, hm0, hm1, hcs, setCS,
              Function.update_same]
      · norm_num [massStage2P, hmin, hmax, hcs]
    · norm_num [massStage2P, hmin, hcs]
  · intro i r d0prod s hcs
    by_cases hd : r.d0d0 < d0prod <;>
      norm_num [impParStage2P, hd, hcs, setCS, Function.update_same]
  · intro cfg inp s i hdbg hb
    rw [step2P_of_bin_neg cfg inp s hb]
    rw [hdbg]
    refine ⟨?_, ?_, rfl, rfl⟩
    · simp [setCS, Function.update_same]
    · intro j hj
      simp [setCS, Function.update_same, Function.update_noteq hj]

/-- Debug-mode variant of the concrete configuration cfgW. -/
def cfgDbgW : SkimCfg :=
  { debug := true, pTTolerance := 1 / 10,
    pTBins2Prong := fun _ => [0, 5, 10],
    cut2Prong := fun _ _ => ⟨1, 2, 1, -2⟩,
    pTBins3Prong := fun _ => [0, 5, 10],
    cut3Prong := fun _ _ => ⟨1, 2, -2, -1⟩ }

/-- Concrete 2-prong kinematics with combined pT 15, outside the pT bins
of cfgDbgW. -/
def inpOut : Prong2Kine :=
  { dcaXY0 := 0, dcaXY1 := 0, ptComb := 15, m2 := fun _ => (1, 4) }

/-- Witness for C4: candidate pT 15 is outside the bins, so even in debug
mode the loop body stops at the pT-bin stage, the debug matrix row marks
only the stage-1 entry (index 0) false, and the bit is cleared. -/
theorem claim4_stage_skipping_witness :
    (step2P cfgDbgW inpOut 0 initState2).cutStatus 0 0 = false ∧
      (step2P cfgDbgW inpOut 0 initState2).cutStatus 0 1 = true ∧
      (step2P cfgDbgW inpOut 0 initState2).isSelected = clrBit initState2.isSelected 0 := by
  have h := claim4_stage_skipping.2.2.2.2 cfgDbgW inpOut initState2 0 rfl
    (by norm_num [cfgDbgW, inpOut, findBin, findBinAux])
  refine ⟨h.1, ?_, h.2.2.2⟩
  rw [h.2.1 1 (by decide)]
  rfl

theorem mem_ite_nil {α : Type} {c : Prop} [Decidable c] {l : List α} {a : α} :
    a ∈ (if c then ([] : List α) else l) ↔ ¬c ∧ a ∈ l := by
  split_ifs with h <;> simp [h]

theorem mem_ite_singleton {α : Type} {c : Prop} [Decidable c] {x a : α} :
    a ∈ (if c then [x] else ([] : List α)) ↔ c ∧ a = x := by
  split_ifs with h <;> simp [h]

theorem mem_tuples2 {ts : List Track} {p n : ℕ} (h : (p, n) ∈ tuples2 ts) :
    p < ts.length ∧ n < ts.length ∧
      ¬((ts.getD p default).signed1Pt < 0) ∧ ¬(0 < (ts.getD n default).signed1Pt) := by
  simp only [tuples2, List.mem_flatMap, List.mem_range] at h
  obtain ⟨p1, hp1, hin⟩ := h
  rw [mem_ite_nil] at hin
  obtain ⟨hsp, hin⟩ := hin
  rw [mem_ite_nil] at hin
  obtain ⟨-, hin⟩ := hin
  simp only [List.mem_flatMap, List.mem_range] at hin
  obtain ⟨n1, hn1, hin⟩ := hin
  rw [mem_ite_nil] at hin
  obtain ⟨hsn, hin⟩ := hin
  rw [mem_ite_nil] at hin
  obtain ⟨-, hin⟩ := hin
  rw [mem_ite_singleton] at hin
  obtain ⟨-, heq⟩ := hin
  injection heq with h1 h2
  subst h1; subst h2
  exact ⟨hp1, hn1, hsp, hsn⟩

theorem mem_tuples3 {ts : List Track} {a b c : ℕ} (h : (a, b, c) ∈ tuples3 ts) :
    (a < ts.length ∧ b < ts.length ∧ a < c ∧ c < ts.length ∧
      ¬((ts.getD a default).signed1Pt < 0) ∧ ¬(0 < (ts.getD b default).signed1Pt) ∧
      ¬((ts.getD c default).signed1Pt < 0)) ∨
    (a < ts.length ∧ b < ts.length ∧ a < c ∧ c < ts.length ∧
      ¬(0 < (ts.getD a default).signed1Pt) ∧ ¬((ts.getD b default).signed1Pt < 0) ∧
      ¬(0 < (ts.getD c default).signed1Pt)) := by
  simp only [tuples3, List.mem_flatMap, List.mem_range] at h
  obtain ⟨p1, hp1, hin⟩ := h
  rw [mem_ite_nil] at hin
  obtain ⟨hsp, hin⟩ := hin
  rw [mem_ite_nil] at hin
  obtain ⟨-, hin⟩ := hin
  simp only [List.mem_flatMap, List.mem_range] at hin
  obtain ⟨n1, hn1, hin⟩ := hin
  rw [mem_ite_nil] at hin
  obtain ⟨hsn, hin⟩ := hin
  rw [mem_ite_nil] at hin
  obtain ⟨-, hin⟩ := hin
  rw [mem_ite_nil] at hin
  obtain ⟨-, hin⟩ := hin
  rw [mem_ite_nil] at hin
  obtain ⟨-, hin⟩ := hin
  rw [List.mem_append] at hin
  rcases hin with hin | hin
  · left
    simp only [List.mem_flatMap, List.mem_range'_1] at hin
    obtain ⟨p2, ⟨hp2lo, hp2hi⟩, hin⟩ := hin
    rw [mem_ite_nil] at hin
    obtain ⟨hsp2, hin⟩ := hin
    rw [mem_ite_nil] at hin
    obtain ⟨-, hin⟩ := hin
    rw [List.mem_singleton] at hin
    injection hin with h1 h23
    injection h23 with h2 h3
    subst h1; subst h2; subst h3
    exact ⟨hp1, hn1, by omega, by omega, hsp, hsn, hsp2⟩
  · right
    simp only [List.mem_flatMap, List.mem_range'_1] at hin
    obtain ⟨n2, ⟨hn2lo, hn2hi⟩, hin⟩ := hin
    rw [mem_ite_nil] at hin
    obtain ⟨hsn2, hin⟩ := hin
    rw [mem_ite_nil] at hin
    obtain ⟨-, hin⟩ := hin
    rw [List.mem_singleton] at hin
    injection hin with h1 h23
    injection h23 with h2 h3
    subst h1; subst h2; subst h3
    exact ⟨hn1, hp1, by omega, by omega, hsn, hsp, hsn2⟩

theorem sign_ne {ts : List Track} (hnz : ∀ t ∈ ts, t.signed1Pt ≠ 0) {x y : ℕ}
    (hx : x < ts.length)
    (hxs : ¬((ts.getD x default).signed1Pt < 0))
    (hys : ¬(0 < (ts.getD y default).signed1Pt)) : x ≠ y := by
  intro he
  subst he
  have hmem : ts.getD x default ∈ ts := by
    rw [List.getD_eq_getElem _ _ hx]
    exact List.getElem_mem _
  exact hnz _ hmem (le_antisymm (not_lt.mp hys) (not_lt.mp hxs))

/-- C5 counterexample: a track whose signed1Pt is exactly 0 passes both the
positive-track filter (signed1Pt not below 0) and the negative-track filter
(signed1Pt not above 0), so the generator emits the 2-prong pair (0, 0)
pairing row 0 with itself. -/
theorem claim5_self_pairing_counterexample :
    (0, 0) ∈ tuples2 [⟨0, 3⟩] := by decide

/-- C5 (amended): provided every input track has a non-zero signed1Pt (a
strict charge sign), the generator never repeats a source-track row inside
a tuple: 2-prong pairs have distinct indices, and both kinds of 3-prong
triples have pairwise distinct indices (opposite-sign requirement between
the first two slots, strictly increasing index for the same-sign third
slot). -/
theorem claim5_self_pairing_amended (ts : List Track)
    (hnz : ∀ t ∈ ts, t.signed1Pt ≠ 0) :
    (∀ p n, (p, n) ∈ tuples2 ts → p ≠ n) ∧
    (∀ a b c, (a, b, c) ∈ tuples3 ts → a ≠ b ∧ a ≠ c ∧ b ≠ c) := by
  constructor
  · intro p n hmem
    obtain ⟨hp, hn, hsp, hsn⟩ := mem_tuples2 hmem
    exact sign_ne hnz hp hsp hsn
  · intro a b c hmem
    rcases mem_tuples3 hmem with ⟨ha, hb, hac, hc, hsa, hsb, hsc⟩ |
      ⟨ha, hb, hac, hc, hsa, hsb, hsc⟩
    · exact ⟨sign_ne hnz ha hsa hsb, by omega, (sign_ne hnz hc hsc hsb).symm⟩
    · exact ⟨(sign_ne hnz hb hsb hsa).symm, by omega, sign_ne hnz hb hsb hsc⟩

/-- Witness for C5 (amended): on the two-track collection with strictly
positive and strictly negative signed1Pt, the emitted pair (0, 1) has
distinct indices. -/
theorem claim5_self_pairing_witness : (0 : ℕ) ≠ 1 :=
  (claim5_self_pairing_amended [⟨1, 3⟩, ⟨-1, 3⟩] (by decide)).1 0 1 (by decide)

theorem sorted_getD_lt_getD {edges : List ℚ} (hs : edges.Sorted (· < ·))
    {a b : ℕ} (hab : a < b) (hb : b < edges.length) :
    edges.getD a 0 < edges.getD b 0 := by
  rw [List.getD_eq_getElem _ _ (lt_trans hab hb), List.getD_eq_getElem _ _ hb]
  exact (List.pairwise_iff_get.mp hs) ⟨a, lt_trans hab hb⟩ ⟨b, hb⟩ hab

/-- C6 counterexample: the pT-bin lookup is not non-decreasing in pT over
its whole domain, because any pT at or above the last edge maps to the
sentinel -1, which is smaller than every valid bin index: with edges
[0, 2], pT = 1 gives bin 0 while the larger pT = 3 gives -1. -/
theorem claim6_bin_lookup_counterexample :
    ((1 : ℚ) ≤ 3 ∧ findBin [0, 2] 1 = ((0 : ℕ) : ℤ) ∧ findBin [0, 2] 3 = -1) ∧
      ¬(findBin [0, 2] 1 ≤ findBin [0, 2] 3) := by decide

/-- C6 (amended): for strictly increasing edges, findBin returns bin index
i exactly when edges[i] <= pT < edges[i+1]; it returns the sentinel -1
exactly when pT < edges[0] or pT >= edges[k] (k the last edge); every
interior edge maps to its own bin index; the lookup is non-decreasing in
pT as long as the larger argument is still within acceptance (the sentinel
value -1 of an out-of-acceptance pT is numerically below every valid bin
index, which is the one amendment to the monotonicity wording); and a
sentinel lookup makes the pre-vertex loop body clear the hypothesis bit at
stage 1 (cut-status index 0 in debug) rather than raise an error. -/
theorem claim6_bin_lookup :
    (∀ (edges : List ℚ), edges.Sorted (· < ·) → ∀ (i : ℕ), i + 1 < edges.length →
      ∀ pT : ℚ, (findBin edges pT = (i : ℤ) ↔
        edges.getD i 0 ≤ pT ∧ pT < edges.getD (i + 1) 0)) ∧
    (∀ (edges : List ℚ), edges.Sorted (· < ·) → edges ≠ [] →
      ∀ pT : ℚ, (findBin edges pT = -1 ↔
        pT < edges.getD 0 0 ∨ edges.getD (edges.length - 1) 0 ≤ pT)) ∧
    (∀ (edges : List ℚ), edges.Sorted (· < ·) → ∀ (i : ℕ), i + 1 < edges.length →
      findBin edges (edges.getD i 0) = (i : ℤ)) ∧
    (∀ (edges : List ℚ) (pT pT' : ℚ), findBin edges pT' ≠ -1 → pT ≤ pT' →
      findBin edges pT ≤ findBin edges pT') ∧
    (∀ (cfg : SkimCfg) (inp : Prong2Kine) (s : SelState) (i : ℕ),
      findBin (cfg.pTBins2Prong i) (inp.ptComb + cfg.pTTolerance) = -1 →
      (step2P cfg inp i s).isSelected.testBit i = false ∧
        (cfg.debug = true → (step2P cfg inp i s).cutStatus i 0 = false)) := by
  refine ⟨?_, ?_, ?_, ?_, ?_⟩
  · intro edges hs i hi pT
    exact findBin_eq_cast_iff hs hi pT
  · intro edges hs hne pT
    exact findBin_eq_neg_one_iff hs hne pT
  · intro edges hs i hi
    exact (findBin_eq_cast_iff hs hi _).mpr
      ⟨le_refl _, sorted_getD_lt_getD hs (by omega) hi⟩
  · intro edges pT pT' hne hle
    exact findBin_mono hne hle
  · intro cfg inp s i hb
    rw [step2P_of_bin_neg cfg inp s hb]
    constructor
    · exact testBit_clrBit_self _ _
    · intro hdbg
      rw [hdbg]
      simp [setCS, Function.update_same]

/-- Witness for C6: on the strictly increasing edges [0, 2], the interior
edge 0 maps to bin 0 and pT = 1 lies in bin 0. -/
theorem claim6_bin_lookup_witness :
    findBin [0, 2] 1 = ((0 : ℕ) : ℤ) :=
  (claim6_bin_lookup.1 [0, 2] (by decide) 0 (by decide) 1).mpr (by decide)

theorem processTuple2_fit_zero (cfg : SkimCfg) (inp : Prong2Kine) (ptFit cpa : ℚ) :
    processTuple2 cfg inp 0 ptFit cpa = none := by
  simp only [processTuple2]
  rw [if_neg (by simp)]

theorem processTuple3_fit_zero (cfg : SkimCfg) (inp : Prong3Kine) (ptFit cpa decLen : ℚ) :
    processTuple3 cfg inp 0 ptFit cpa decLen = none := by
  simp only [processTuple3]
  split_ifs <;> rfl

/-- C7: a vertex fit that fails (the opaque solver returning 0) produces no
candidate row: the 2-prong and 3-prong per-tuple pipelines both return none
when the fit result is 0 (total functions, no exception), and the 2-prong
output-row list of a whole track collection never contains a row for a
tuple whose fit result is 0 (the enumeration silently continues with the
other tuples). -/
theorem claim7_fit_failure :
    (∀ (cfg : SkimCfg) (inp : Prong2Kine) (ptFit cpa : ℚ),
      processTuple2 cfg inp 0 ptFit cpa = none) ∧
    (∀ (cfg : SkimCfg) (inp : Prong3Kine) (ptFit cpa decLen : ℚ),
      processTuple3 cfg inp 0 ptFit cpa decLen = none) ∧
    (∀ (cfg : SkimCfg) (kin : ℕ × ℕ → Prong2Kine) (fit : ℕ × ℕ → ℕ)
      (ptFit cpa : ℕ × ℕ → ℚ) (ts : List Track) (pr : ℕ × ℕ),
      fit pr = 0 →
      ∀ x ∈ process2Rows cfg kin fit ptFit cpa ts, (x.1, x.2.1) ≠ pr) := by
  refine ⟨processTuple2_fit_zero, processTuple3_fit_zero, ?_⟩
  intro cfg kin fit ptFit cpa ts pr hfit x hx
  simp only [process2Rows, List.mem_filterMap] at hx
  obtain ⟨pr1, hpr1, hmap⟩ := hx
  rcases hopt : processTuple2 cfg (kin pr1) (fit pr1) (ptFit pr1) (cpa pr1) with _ | v
  · rw [hopt] at hmap
    exact Option.noConfusion hmap
  · rw [hopt] at hmap
    rw [show Option.map (fun sel => (pr1.1, pr1.2, sel)) (some v) = some (pr1.1, pr1.2, v)
      from rfl] at hmap
    injection hmap with hmap
    intro hcontra
    rw [← hmap] at hcontra
    have hpr_eq : pr1 = pr := hcontra
    rw [hpr_eq, hfit] at hopt
    rw [processTuple2_fit_zero] at hopt
    exact Option.noConfusion hopt

/-- Two-track collection with a strictly positive and a strictly negative
track, both with all prong flags. -/
def trackListW : List Track := [⟨1, 3⟩, ⟨-1, 3⟩]

/-- Witness for C7: with a fit oracle that always fails, the 2-prong output
rows of the concrete trackListW never cover the enumerated tuple (0, 1). -/
theorem claim7_fit_failure_witness :
    ∀ x ∈ process2Rows cfgW (fun _ => inpW) (fun _ => 0) (fun _ => 3) (fun _ => 0)
      trackListW, (x.1, x.2.1) ≠ (0, 1) :=
  claim7_fit_failure.2.2 cfgW (fun _ => inpW) (fun _ => 0) (fun _ => 3) (fun _ => 0)
    trackListW (0, 1) rfl

theorem step2P_cfg_congr {cfg cfg' : SkimCfg} {i : ℕ}
    (hcut : cfg.cut2Prong i = cfg'.cut2Prong i) (hdbg : cfg.debug = cfg'.debug)
    (htol : cfg.pTTolerance = cfg'.pTTolerance)
    (hbins : cfg.pTBins2Prong i = cfg'.pTBins2Prong i) (inp : Prong2Kine) (s : SelState) :
    step2P cfg inp i s = step2P cfg' inp i s := by
  simp only [step2P, hdbg, htol, hbins, hcut]

/-- C8: the candidate preselection is deterministic and free of hidden
mutable state. The function-local static index vectors (the only mutable
state shared between invocations, modelled by the Cache2P argument) are
overwritten from the read-only cut tables on every call, so the result is
independent of the cache contents left by earlier calls; calling twice in
sequence (threading the static state) gives identical results and
identical posterior static state; and the result coincides with the
reference evaluation that looks every column index up directly, for
bit-identical inputs (floating-point values modelled as exact rationals). -/
theorem claim8_determinism :
    (∀ (c1 c2 : Cache2P) (dbg : Bool) (pTTol : ℚ) (pTBins : ℕ → List ℚ)
      (tables : ℕ → LabeledCuts) (inp : Prong2Kine) (s : SelState),
      is2ProngPreselectedCached c1 dbg pTTol pTBins tables inp s =
        is2ProngPreselectedCached c2 dbg pTTol pTBins tables inp s) ∧
    (∀ (c0 : Cache2P) (dbg : Bool) (pTTol : ℚ) (pTBins : ℕ → List ℚ)
      (tables : ℕ → LabeledCuts) (inp : Prong2Kine) (s : SelState),
      (is2ProngPreselectedCached c0 dbg pTTol pTBins tables inp s).1 =
        (is2ProngPreselectedCached
          (is2ProngPreselectedCached c0 dbg pTTol pTBins tables inp s).2
          dbg pTTol pTBins tables inp s).1 ∧
      (is2ProngPreselectedCached c0 dbg pTTol pTBins tables inp s).2 =
        (is2ProngPreselectedCached
          (is2ProngPreselectedCached c0 dbg pTTol pTBins tables inp s).2
          dbg pTTol pTBins tables inp s).2) ∧
    (∀ (c0 : Cache2P) (dbg : Bool) (pTTol : ℚ) (pTBins : ℕ → List ℚ)
      (tables : ℕ → LabeledCuts) (inp : Prong2Kine) (s : SelState),
      (is2ProngPreselectedCached c0 dbg pTTol pTBins tables inp s).1 =
        is2ProngPreselected (cfgDirect dbg pTTol pTBins tables) inp s) := by
  refine ⟨fun c1 c2 dbg pTTol pTBins tables inp s => rfl,
    fun c0 dbg pTTol pTBins tables inp s => ⟨rfl, rfl⟩,
    fun c0 dbg pTTol pTBins tables inp s => ?_⟩
  have hcut : ∀ i, i < n2ProngDecays →
      (cfgOfTables dbg pTTol pTBins tables (cacheIndices2P tables)).cut2Prong i =
        (cfgDirect dbg pTTol pTBins tables).cut2Prong i := by
    intro i hi
    have hi3 : i < 3 := hi
    interval_cases i <;> rfl
  show is2ProngPreselected (cfgOfTables dbg pTTol pTBins tables (cacheIndices2P tables))
      inp s = is2ProngPreselected (cfgDirect dbg pTTol pTBins tables) inp s
  rw [is2ProngPreselected_unfold, is2ProngPreselected_unfold]
  have hc : ∀ i, i < n2ProngDecays → ∀ t,
      step2P (cfgOfTables dbg pTTol pTBins tables (cacheIndices2P tables)) inp i t =
        step2P (cfgDirect dbg pTTol pTBins tables) inp i t := by
    intro i hi t
    exact step2P_cfg_congr (hcut i hi) rfl rfl rfl inp t
  rw [hc 0 (by decide), hc 1 (by decide), hc 2 (by decide)]

theorem step2P_testBit_self_char (cfg : SkimCfg) (inp : Prong2Kine) (i : ℕ)
    (s : SelState) (hdis : ∀ b, (cfg.cut2Prong i b).massMin < 0)
    (hd0 : ∀ b, inp.dcaXY0 * inp.dcaXY1 ≤ (cfg.cut2Prong i b).d0d0) :
    (step2P cfg inp i s).isSelected.testBit i =
      if findBin (cfg.pTBins2Prong i) (inp.ptComb + cfg.pTTolerance) = -1 then false
      else s.isSelected.testBit i := by
  rcases findBin_shape (cfg.pTBins2Prong i) (inp.ptComb + cfg.pTTolerance) with hb | ⟨b, hb⟩
  · rw [step2P_of_bin_neg cfg inp s hb, hb, if_pos rfl]
    exact testBit_clrBit_self _ _
  · rw [step2P_of_bin_eq cfg inp s hb, hb, if_neg (by omega)]
    rw [massStage2P_of_disabled (Or.inl (hdis b))]
    simp only [impParStage2P]
    split_ifs with h1 h2 h3 <;>
      first
        | rfl
        | exact absurd h2 (not_lt.mpr (hd0 b))

theorem stepPost2P_of_bin_neg (cfg : SkimCfg) (ptFit cpa : ℚ) (i : ℕ) (s : SelState)
    (hb : findBin (cfg.pTBins2Prong i) ptFit = -1) :
    stepPost2P cfg ptFit cpa i s =
      { s with
        isSelected := clrBit s.isSelected i,
        cutStatus := if cfg.debug then setCS s.cutStatus i 0 else s.cutStatus } := by
  simp only [stepPost2P, hb]
  rw [if_pos trivial]

theorem stepPost2P_of_bin_eq (cfg : SkimCfg) (ptFit cpa : ℚ) (i : ℕ) (s : SelState)
    {b : ℕ} (hb : findBin (cfg.pTBins2Prong i) ptFit = (b : ℤ)) :
    stepPost2P cfg ptFit cpa i s =
      cospStage2P cfg.debug i (cfg.cut2Prong i b) cpa s := by
  simp only [stepPost2P, hb]
  rw [if_neg (by omega)]
  norm_num

theorem stepPost2P_testBit_self_char (cfg : SkimCfg) (ptFit cpa : ℚ) (i : ℕ)
    (s : SelState) (hcosp : ∀ b, (cfg.cut2Prong i b).cosp ≤ cpa) :
    (stepPost2P cfg ptFit cpa i s).isSelected.testBit i =
      if findBin (cfg.pTBins2Prong i) ptFit = -1 then false
      else s.isSelected.testBit i := by
  rcases findBin_shape (cfg.pTBins2Prong i) ptFit with hb | ⟨b, hb⟩
  · rw [stepPost2P_of_bin_neg cfg ptFit cpa i s hb, hb, if_pos rfl]
    exact testBit_clrBit_self _ _
  · rw [stepPost2P_of_bin_eq cfg ptFit cpa i s hb, hb, if_neg (by omega)]
    simp only [cospStage2P]
    split_ifs with h1 h2 h3 <;>
      first
        | rfl
        | exact absurd h2 (not_lt.mpr (hcosp _))

/-- C9: the pre-vertex 2-prong pT-bin lookup is performed on the combined
pT plus the configured pTTolerance, while the post-vertex lookup uses the
unshifted fitted pT. With the mass cut disabled and a passing
impact-parameter product, survival of a hypothesis bit in the
preselection is equivalent to the shifted lookup finding a bin; with a
passing pointing-angle cut, survival in the post-vertex selection is
equivalent to the unshifted lookup finding a bin; and the two lookups can
resolve to different bins for the same momentum value (4.9 + 0.1 = 5.0
falls in bin 1 of [0, 5, 10) while 4.9 falls in bin 0), so the two phases
can apply thresholds from different rows. -/
theorem claim9_pt_tolerance_shift :
    (∀ (cfg : SkimCfg) (inp : Prong2Kine) (s : SelState) (i : ℕ),
      i < n2ProngDecays →
      (∀ b, (cfg.cut2Prong i b).massMin < 0) →
      (∀ b, inp.dcaXY0 * inp.dcaXY1 ≤ (cfg.cut2Prong i b).d0d0) →
      s.isSelected.testBit i = true →
      ((is2ProngPreselected cfg inp s).isSelected.testBit i = true ↔
        findBin (cfg.pTBins2Prong i) (inp.ptComb + cfg.pTTolerance) ≠ -1)) ∧
    (∀ (cfg : SkimCfg) (ptFit cpa : ℚ) (s : SelState) (i : ℕ),
      i < n2ProngDecays →
      (∀ b, (cfg.cut2Prong i b).cosp ≤ cpa) →
      s.isSelected.testBit i = true →
      ((is2ProngSelected cfg ptFit cpa s).isSelected.testBit i = true ↔
        findBin (cfg.pTBins2Prong i) ptFit ≠ -1)) ∧
    (findBin [0, 5, 10] (49 / 10 + 1 / 10) = ((1 : ℕ) : ℤ) ∧
      findBin [0, 5, 10] (49 / 10) = ((0 : ℕ) : ℤ)) := by
  refine ⟨?_, ?_, ?_, ?_⟩
  · intro cfg inp s i hi hdis hd0 hbit
    have hi3 : i < 3 := hi
    rw [is2ProngPreselected_unfold]
    interval_cases i
    · rw [step2P_testBit_ne (by norm_num : (0 : ℕ) ≠ 2),
        step2P_testBit_ne (by norm_num : (0 : ℕ) ≠ 1),
        step2P_testBit_self_char cfg inp 0 s hdis hd0]
      by_cases hb : findBin (cfg.pTBins2Prong 0) (inp.ptComb + cfg.pTTolerance) = -1 <;>
        simp [hb, hbit]
    · rw [step2P_testBit_ne (by norm_num : (1 : ℕ) ≠ 2),
        step2P_testBit_self_char cfg inp 1 _ hdis hd0,
        step2P_testBit_ne (by norm_num : (1 : ℕ) ≠ 0)]
      by_cases hb : findBin (cfg.pTBins2Prong 1) (inp.ptComb + cfg.pTTolerance) = -1 <;>
        simp [hb, hbit]
    · rw [step2P_testBit_self_char cfg inp 2 _ hdis hd0,
        step2P_testBit_ne (by norm_num : (2 : ℕ) ≠ 1),
        step2P_testBit_ne (by norm_num : (2 : ℕ) ≠ 0)]
      by_cases hb : findBin (cfg.pTBins2Prong 2) (inp.ptComb + cfg.pTTolerance) = -1 <;>
        simp [hb, hbit]
  · intro cfg ptFit cpa s i hi hcosp hbit
    have hi3 : i < 3 := hi
    have hpos : (cfg.debug || decide (0 < s.isSelected)) = true := by
      simp [testBit_ne_zero hbit]
    simp only [is2ProngSelected]
    rw [if_pos (by simpa using hpos)]
    have hrange : List.range n2ProngDecays = [0, 1, 2] := rfl
    rw [hrange]
    simp only [List.foldl_cons, List.foldl_nil]
    interval_cases i
    · rw [stepPost2P_testBit_ne (by norm_num : (0 : ℕ) ≠ 2),
        stepPost2P_testBit_ne (by norm_num : (0 : ℕ) ≠ 1),
        stepPost2P_testBit_self_char cfg ptFit cpa 0 s hcosp]
      by_cases hb : findBin (cfg.pTBins2Prong 0) ptFit = -1 <;> simp [hb, hbit]
    · rw [stepPost2P_testBit_ne (by norm_num : (1 : ℕ) ≠ 2),
        stepPost2P_testBit_self_char cfg ptFit cpa 1 _ hcosp,
        stepPost2P_testBit_ne (by norm_num : (1 : ℕ) ≠ 0)]
      by_cases hb : findBin (cfg.pTBins2Prong 1) ptFit = -1 <;> simp [hb, hbit]
    · rw [stepPost2P_testBit_self_char cfg ptFit cpa 2 _ hcosp,
        stepPost2P_testBit_ne (by norm_num : (2 : ℕ) ≠ 1),
        stepPost2P_testBit_ne (by norm_num : (2 : ℕ) ≠ 0)]
      by_cases hb : findBin (cfg.pTBins2Prong 2) ptFit = -1 <;> simp [hb, hbit]
  · norm_num [findBin, findBinAux]
  · norm_num [findBin, findBinAux]

/-- Witness for C9: with the disabled mass window of cfgD, a passing
impact-parameter product and a valid shifted bin, the preselection keeps
the hypothesis bit of the concrete evaluation. -/
theorem claim9_pt_tolerance_shift_witness :
    (is2ProngPreselected cfgD inpW initState2).isSelected.testBit 0 = true := by
  refine (claim9_pt_tolerance_shift.1 cfgD inpW initState2 0 (by decide) ?_ ?_ (by decide)).mpr ?_
  · intro b; norm_num [cfgD]
  · intro b; norm_num [cfgD, inpW]
  · norm_num [cfgD, inpW, findBin, findBinAux]

/-- Concrete 3-prong kinematics matching the windows of the concrete
configurations. -/
def inp3W : Prong3Kine := { ptComb := 3, m2 := fun _ => (1, 4) }

/-- C10: in debug mode a 3-prong tuple always produces an index-table row
once the vertex fit succeeds, even when its selection bitmask is zero
after all stages (the two zero-bitmask skips are guarded by non-debug),
whereas a 2-prong tuple whose bitmask is zero after all stages never
produces a row, in debug or non-debug mode and regardless of the fit
outcome. -/
theorem claim10_debug_row_emission :
    (∀ (cfg : SkimCfg) (inp : Prong3Kine) (fit3 : ℕ) (ptFit cpa decLen : ℚ),
      cfg.debug = true → fit3 ≠ 0 →
      (processTuple3 cfg inp fit3 ptFit cpa decLen).isSome = true) ∧
    (∀ (cfg : SkimCfg) (inp : Prong2Kine) (fit2 : ℕ) (ptFit cpa : ℚ),
      (is2ProngSelected cfg ptFit cpa
        (is2ProngPreselected cfg inp initState2)).isSelected = 0 →
      processTuple2 cfg inp fit2 ptFit cpa = none) := by
  constructor
  · intro cfg inp fit3 ptFit cpa decLen hdbg hfit
    simp only [processTuple3, hdbg]
    rw [if_neg (by simp)]
    rw [if_neg hfit]
    rw [if_neg (by simp)]
    rfl
  · intro cfg inp fit2 ptFit cpa h2
    simp only [processTuple2]
    by_cases h1 : 0 < (is2ProngPreselected cfg inp initState2).isSelected
    · by_cases hf : 0 < fit2
      · rw [if_pos (by simp [h1, hf])]
        rw [if_neg (by simp [h2])]
      · rw [if_neg (by simp [hf])]
    · rw [if_neg (by simp [h1])]

/-- Witness for C10: in debug mode with a successful fit the 3-prong
pipeline emits a row on the concrete input, while the 2-prong pipeline on
an out-of-acceptance candidate (combined pT 15, every hypothesis rejected
at the pT-bin stage, bitmask 0) emits none. -/
theorem claim10_debug_row_emission_witness :
    (processTuple3 cfgDbgW inp3W 1 3 0 0).isSome = true ∧
      processTuple2 cfgW inpOut 1 15 0 = none := by
  constructor
  · exact claim10_debug_row_emission.1 cfgDbgW inp3W 1 3 0 0 rfl (by decide)
  · refine claim10_debug_row_emission.2 cfgW inpOut 1 15 0 ?_
    norm_num [is2ProngPreselected_unfold, is2ProngSelected, step2P, massStage2P,
      impParStage2P, cfgW, inpOut, initState2, findBin, findBinAux, clrBit, setCS,
      n2ProngBit, n2ProngDecays, Nat.testBit_zero, Nat.testBit_succ,
      show (7 : ℕ) ^^^ 1 = 6 from by decide, show (6 : ℕ) ^^^ 2 = 4 from by decide,
      show (4 : ℕ) ^^^ 4 = 0 from by decide]

end Skims
